import Mathlib

/-!
Verification development for the survey platform (Convex backend).

The definitions below are a shallow embedding of the TypeScript source:

* answer values and JavaScript number semantics (src/convex/lib/zod.ts,
  src/convex/lib/utils.ts);
* the scoring engine (src/convex/lib/scoring.ts);
* answer validation (validateAnswerWithZod, src/convex/lib/zod.ts);
* the daily analytics materialization engine
  (src/convex/lib/analytics_materialization.ts);
* the invite consumption protocol of submitSession and the session sweeps
  (src/convex/respondent.ts, src/convex/sessions.ts);
* the admin analytics read queries and the outbox dispatcher
  (src/convex/analytics.ts).

Conventions: JavaScript numbers that the code treats as counters are
embedded as Nat, timestamps as Int (milliseconds), scores and other
fractional values as Rat.  UTC calendar date keys (ISO strings ordered
lexicographically in the code) are embedded as Int epoch-day indices,
which the string order represents faithfully.  JavaScript Map objects and
plain objects keyed by strings are embedded as association lists that keep
insertion order, matching the iteration order the code relies on.
-/

namespace Surveys

/-- JavaScript number: NaN, the two infinities, or a finite value
(embedded exactly as a rational). -/
inductive JsNum where
  | nan
  | posInf
  | negInf
  | fin (q : ℚ)
  deriving DecidableEq, Repr

namespace JsNum

/-- IEEE comparison a < b (false whenever either side is NaN). -/
def lt : JsNum → JsNum → Bool
  | nan, _ => false
  | _, nan => false
  | negInf, negInf => false
  | negInf, _ => true
  | _, negInf => false
  | posInf, _ => false
  | fin _, posInf => true
  | fin a, fin b => decide (a < b)

/-- IEEE comparison a <= b (false whenever either side is NaN). -/
def le : JsNum → JsNum → Bool
  | nan, _ => false
  | _, nan => false
  | negInf, _ => true
  | _, negInf => false
  | _, posInf => true
  | posInf, fin _ => false
  | fin a, fin b => decide (a ≤ b)

/-- IEEE subtraction, restricted to the cases the code exercises. -/
def sub : JsNum → JsNum → JsNum
  | nan, _ => nan
  | _, nan => nan
  | posInf, posInf => nan
  | posInf, _ => posInf
  | negInf, negInf => nan
  | negInf, _ => negInf
  | fin _, posInf => negInf
  | fin _, negInf => posInf
  | fin a, fin b => fin (a - b)

/-- Math.abs. -/
def abs : JsNum → JsNum
  | nan => nan
  | posInf => posInf
  | negInf => posInf
  | fin a => fin |a|

/-- Number.isNaN. -/
def isNaN : JsNum → Bool
  | nan => true
  | _ => false

/-- Number.isInteger (false on NaN and the infinities). -/
def isInteger : JsNum → Bool
  | fin a => decide (a.den = 1)
  | _ => false

/-- Number.isFinite. -/
def isFinite : JsNum → Bool
  | fin _ => true
  | _ => false

end JsNum

/-- A submitted answer value, after the zod answer-map schema
(string | number | boolean | string[] | null keyed by field id). -/
inductive AnswerValue where
  | str (s : String)
  | num (n : JsNum)
  | bool (b : Bool)
  | arr (xs : List String)
  | null
  deriving DecidableEq, Repr

/-- A draft/final answer map: a JavaScript object keyed by field id.
A missing key (undefined) is a failed lookup. -/
abbrev AnswerMap : Type := List (String × AnswerValue)

/-- Object property lookup: answers[fieldId], none meaning undefined. -/
def AnswerMap.get (m : AnswerMap) (fieldId : String) : Option AnswerValue :=
  (m.find? (fun p => p.1 = fieldId)).map (fun p => p.2)

/-- String.prototype.trim, written over the character list so that it
reduces inside the kernel (semantically String.trim). -/
def jsTrim (s : String) : String :=
  String.mk (((s.toList.dropWhile Char.isWhitespace).reverse.dropWhile
    Char.isWhitespace).reverse)

/-- String.prototype.toLowerCase, written over the character list so that
it reduces inside the kernel (semantically String.toLower). -/
def jsToLower (s : String) : String :=
  String.mk (s.toList.map Char.toLower)

/-- isAnswerPresent from src/convex/lib/utils.ts: null/undefined absent,
strings absent when trim-empty, arrays absent when empty, everything else
present. -/
def isAnswerPresent : Option AnswerValue → Bool
  | none => false
  | some .null => false
  | some (.str s) => decide (0 < (jsTrim s).length)
  | some (.arr xs) => decide (0 < xs.length)
  | some _ => true

/-- Field kinds (src/convex/lib/zod.ts fieldKindSchema). -/
inductive FieldKind where
  | short_text
  | long_text
  | single_select
  | multi_select
  | number
  | email
  | date
  | rating_1_5
  deriving DecidableEq, Repr

/-- An option of a select field. -/
structure FieldOption where
  label : String
  value : String
  deriving DecidableEq, Repr

/-- A correctness rule attached to a field.  Configured numbers are finite
per the field schema, so they are embedded directly as rationals. -/
inductive Correctness where
  | text_exact (expectedText : String)
  | single_select_exact (expectedOptionValue : String)
  | multi_select_exact (expectedOptionValues : List String)
  | numeric_exact (expectedNumber : ℚ) (tolerance : Option ℚ)
  deriving DecidableEq, Repr

/-- Optional validation constraints of a field. -/
structure FieldValidation where
  minLength : Option ℕ := none
  maxLength : Option ℕ := none
  min : Option ℚ := none
  max : Option ℚ := none
  pattern : Option String := none
  deriving DecidableEq, Repr

/-- A survey field (surveyVersions.fields[number]).  order is a
non-negative integer per the field schema. -/
structure Field where
  id : String
  kind : FieldKind
  label : String
  required : Bool
  order : ℕ
  options : Option (List FieldOption) := none
  validation : Option FieldValidation := none
  correctness : Option Correctness := none
  deriving DecidableEq, Repr

/-- (field.options ?? []).map(o => o.value). -/
def Field.optionValues (f : Field) : List String :=
  (f.options.getD []).map (fun o => o.value)

/-! ## Scoring engine: src/convex/lib/scoring.ts -/

/-- normalizeText: value.trim().toLowerCase(). -/
def normalizeText (value : String) : String :=
  jsToLower (jsTrim value)

/-- compareExactMultiSelect: the two string lists are equal as sets. -/
def compareExactMultiSelect (expected actual : List String) : Bool :=
  let expectedSet := expected.dedup
  let actualSet := actual.dedup
  if expectedSet.length ≠ actualSet.length then false
  else expectedSet.all (fun v => actualSet.contains v)

/-- evaluateFieldCorrectness: none when the field has no correctness rule,
otherwise whether the answer is correct.  The multi-select case of the
source also rejects arrays containing non-strings; under the zod answer
value type an array is always a string array, so that guard is vacuous
here. -/
def evaluateFieldCorrectness (field : Field) (answer : Option AnswerValue) :
    Option Bool :=
  match field.correctness with
  | none => none
  | some (.text_exact expectedText) =>
      match answer with
      | some (.str s) => some (decide (normalizeText s = normalizeText expectedText))
      | _ => some false
  | some (.single_select_exact expectedOptionValue) =>
      match answer with
      | some (.str s) => some (decide (s = expectedOptionValue))
      | _ => some false
  | some (.multi_select_exact expectedOptionValues) =>
      match answer with
      | some (.arr xs) => some (compareExactMultiSelect expectedOptionValues xs)
      | _ => some false
  | some (.numeric_exact expectedNumber tolerance) =>
      match answer with
      | some (.num n) =>
          if n.isNaN then some false
          else
            let tol := tolerance.getD 0
            some ((n.sub (.fin expectedNumber)).abs.le (.fin tol))
      | _ => some false

/-- The grading snapshot returned by gradeSubmission. -/
structure SubmissionGrading where
  gradableCount : ℕ
  correctCount : ℕ
  incorrectCount : ℕ
  scorePercent : ℚ
  fieldResults : List (String × Bool)
  deriving DecidableEq, Repr

/-- The loop body of gradeSubmission: skip ungradable fields, otherwise
bump the gradable count, the correct count when the answer is correct,
and record the per-field result. -/
def gradeStep (answers : AnswerMap) (acc : ℕ × ℕ × List (String × Bool))
    (field : Field) : ℕ × ℕ × List (String × Bool) :=
  match field.correctness with
  | none => acc
  | some _ =>
      let isCorrect := evaluateFieldCorrectness field (answers.get field.id) = some true
      (acc.1 + 1, (if isCorrect then acc.2.1 + 1 else acc.2.1),
        acc.2.2 ++ [(field.id, decide isCorrect)])

/-- gradeSubmission: fold over the fields, counting gradable fields and
correct answers; incorrectCount = max(0, gradable - correct) is Nat
subtraction here; scorePercent = round(correct/gradable*10000)/100 with 0
for no gradable fields (Math.round is round-half-up, as is Mathlib round).
-/
def gradeSubmission (fields : List Field) (answers : AnswerMap) :
    SubmissionGrading :=
  let r := fields.foldl (gradeStep answers) (0, 0, [])
  let gradableCount := r.1
  let correctCount := r.2.1
  let incorrectCount := gradableCount - correctCount
  let scorePercent : ℚ :=
    if gradableCount = 0 then 0
    else (round ((correctCount : ℚ) / (gradableCount : ℚ) * 10000) : ℚ) / 100
  { gradableCount := gradableCount
    correctCount := correctCount
    incorrectCount := incorrectCount
    scorePercent := scorePercent
    fieldResults := r.2.2 }

/-! ## Answer validation: validateAnswerWithZod, src/convex/lib/zod.ts

The source returns an error message string or null.  Each return site is
embedded as one constructor of AnswerError, so none still means the value
was accepted.  z.number() in zod v3 (the version in use: the schema code
relies on v3 APIs such as z.ZodIssueCode.custom) rejects NaN, whose parsed
type is "nan", but accepts the infinities; .finite() is not used.
z.array(z.string()) succeeds exactly on string arrays.  The regex test for
a configured pattern is an effect of the host regex engine and is taken as
an explicit function parameter; the fixed email regex
^[^\s@]+@[^\s@]+\.[^\s@]+$ is embedded directly below. -/

/-- One constructor per error-message return site of validateAnswerWithZod. -/
inductive AnswerError where
  | fieldRequired
  | expectedString
  | invalidEmailFormat
  | invalidOptionSelected
  | minimumLength
  | maximumLength
  | patternMismatch
  | expectedArrayOfStrings
  | invalidOptionInArray
  | expectedNumber
  | ratingOutOfRange
  | minimumValue
  | maximumValue
  deriving DecidableEq, Repr

/-- Characters admitted by the [^\s@] classes of the email regex. -/
def emailChar (c : Char) : Bool :=
  !c.isWhitespace && c ≠ '@'

/-- The tail part of the email regex, [^\s@]+\.[^\s@]+ anchored at the end:
all characters are in the class and some dot is neither first nor last. -/
def emailTailOk (cs : List Char) : Bool :=
  cs.all emailChar &&
    (List.range cs.length).any (fun i =>
      decide (1 ≤ i) && decide (i + 1 < cs.length) && decide (cs.getD i ' ' = '.'))

/-- Test of the email regex ^[^\s@]+@[^\s@]+\.[^\s@]+$: exactly one @,
a non-empty class-only local part, and a tail as above. -/
def emailRegexTest (s : String) : Bool :=
  match s.toList.splitOn '@' with
  | [localPart, tailPart] =>
      decide (0 < localPart.length) && localPart.all emailChar && emailTailOk tailPart
  | _ => false

/-- z.number().safeParse: succeeds on any JavaScript number except NaN. -/
def zodNumberParse : AnswerValue → Option JsNum
  | .num n => if n.isNaN then none else some n
  | _ => none

/-- z.array(z.string()).safeParse: succeeds exactly on string arrays. -/
def zodStringArrayParse : AnswerValue → Option (List String)
  | .arr xs => some xs
  | _ => none

/-- Embedding of tests of the shape o !== undefined && p(o): false when
the optional is absent, otherwise the inner test. -/
def optTest (o : Option α) (p : α → Bool) : Bool :=
  match o with
  | some a => p a
  | none => false

/-- validateAnswerWithZod(field, value).  none means accepted.
matchPattern stands for new RegExp(pattern).test(value); an empty pattern
string is falsy in the source, so the test is skipped for it. -/
def validateAnswerWithZod (matchPattern : String → String → Bool)
    (field : Field) (value : Option AnswerValue) : Option AnswerError :=
  let required := field.required
  let absent :=
    match value with
    | none => true
    | some .null => true
    | some (.str s) => (jsTrim s).length = 0
    | some (.arr xs) => xs.length = 0
    | some _ => false
  if absent then
    if required then some .fieldRequired else none
  else
    match field.kind with
    | .short_text | .long_text | .single_select | .email | .date =>
        match value with
        | some (.str s) =>
            if field.kind = .email ∧ ¬ emailRegexTest s then some .invalidEmailFormat
            else if field.kind = .single_select ∧ 0 < field.optionValues.length ∧
                ¬ field.optionValues.contains s then
              some .invalidOptionSelected
            else if optTest (field.validation.bind (fun v => v.minLength))
                (fun m => decide (s.length < m)) then
              some .minimumLength
            else if optTest (field.validation.bind (fun v => v.maxLength))
                (fun m => decide (m < s.length)) then
              some .maximumLength
            else
              match field.validation.bind (fun v => v.pattern) with
              | some p =>
                  if p.length = 0 then none
                  else if matchPattern p s then none else some .patternMismatch
              | none => none
        | _ => some .expectedString
    | .multi_select =>
        match zodStringArrayParse (value.getD .null) with
        | none => some .expectedArrayOfStrings
        | some xs =>
            if 0 < field.optionValues.length ∧
                xs.any (fun entry => ¬ field.optionValues.contains entry) then
              some .invalidOptionInArray
            else none
    | .number | .rating_1_5 =>
        match zodNumberParse (value.getD .null) with
        | none => some .expectedNumber
        | some n =>
            if field.kind = .rating_1_5 ∧ (n.lt (.fin 1) ∨ (JsNum.fin 5).lt n) then
              some .ratingOutOfRange
            else if optTest (field.validation.bind (fun v => v.min))
                (fun m => n.lt (.fin m)) then
              some .minimumValue
            else if optTest (field.validation.bind (fun v => v.max))
                (fun m => (JsNum.fin m).lt n) then
              some .maximumValue
            else none

/-! ## Association lists modelling JS Map / keyed objects -/

/-- A JS Map: an association list in insertion order. -/
abbrev AList (κ ν : Type) : Type := List (κ × ν)

/-- map.get(k). -/
def AList.get [DecidableEq κ] (m : AList κ ν) (k : κ) : Option ν :=
  (List.find? (fun p => p.1 = k) m).map (fun p => p.2)

/-- map.set(k, v): update in place, or append preserving insertion order. -/
def AList.set [DecidableEq κ] : AList κ ν → κ → ν → AList κ ν
  | [], k, v => [(k, v)]
  | (k0, v0) :: rest, k, v =>
      if k0 = k then (k, v) :: rest else (k0, v0) :: AList.set rest k v

/-- The keys of the map, in insertion order. -/
def AList.keys (m : AList κ ν) : List κ :=
  m.map (fun p => p.1)

/-- The values of the map, in insertion order (Array.from(map.values())). -/
def AList.values (m : AList κ ν) : List ν :=
  m.map (fun p => p.2)

/-! ## Daily rollup rows (src/convex/schema.ts)

surveyId is embedded as a Nat document id; dateKey as an Int epoch day. -/

/-- A surveyAnalyticsDaily row. -/
structure AnalyticsDailyRow where
  surveyId : ℕ
  dateKey : ℤ
  started : ℕ
  completed : ℕ
  idle : ℕ
  abandoned : ℕ
  reactivated : ℕ
  avgScorePercent : ℚ
  totalGraded : ℕ
  updatedAt : ℤ
  deriving DecidableEq, Repr

/-- A surveyMetricsDaily row (the live incremental counters). -/
structure MetricsDailyRow where
  surveyId : ℕ
  dateKey : ℤ
  started : ℕ
  completed : ℕ
  idle : ℕ
  abandoned : ℕ
  reactivated : ℕ
  updatedAt : ℤ
  deriving DecidableEq, Repr

/-- A surveyFieldAnalyticsDaily row. -/
structure FieldDailyRow where
  surveyId : ℕ
  fieldId : String
  dateKey : ℤ
  reachedCount : ℕ
  answeredCount : ℕ
  dropoffCount : ℕ
  updatedAt : ℤ
  deriving DecidableEq, Repr

/-- A surveyAnswerBucketsDaily row. -/
structure BucketDailyRow where
  surveyId : ℕ
  fieldId : String
  dateKey : ℤ
  bucketKey : String
  bucketLabel : String
  count : ℕ
  updatedAt : ℤ
  deriving DecidableEq, Repr

/-- A surveyTextInsightsDaily row. -/
structure TextDailyRow where
  surveyId : ℕ
  fieldId : String
  dateKey : ℤ
  topPhrases : List (String × ℕ)
  sampledSnippets : List (String × ℕ)
  updatedAt : ℤ
  deriving DecidableEq, Repr

/-- A surveyVersions document. -/
structure VersionDoc where
  id : ℕ
  surveyId : ℕ
  version : ℕ
  fields : List Field
  deriving DecidableEq, Repr

/-- A surveyResponses document (the parts analytics reads). -/
structure ResponseDoc where
  surveyId : ℕ
  surveyVersionId : ℕ
  submittedAt : ℤ
  answers : AnswerMap
  grading : Option SubmissionGrading
  deriving DecidableEq, Repr

/-- The (fieldId, bucketKey) identity of a bucket row under its
(surveyId, dateKey). -/
def BucketDailyRow.pairKey (r : BucketDailyRow) : String × String :=
  (r.fieldId, r.bucketKey)

/-! ## Row synchronisation (the upsert/sync helpers of
src/convex/lib/analytics_materialization.ts)

upsertSurveyAnalyticsDailyRow, syncDailyFieldRows, syncDailyBucketRows and
syncDailyTextRows share one shape: collect the existing rows for the
(surveyId, dateKey) slice, index them by a key deleting duplicate-key
rows, then for each fresh row patch the indexed row (the patch payload is
the complete row) or insert a new one, and finally delete every indexed
row not matched by a fresh row.  syncRows below is that shape over an
arbitrary key function; the lists stand for the per-(surveyId, dateKey)
slice of the table that the index scan returns. -/

/-- An existing document while the sync runs: its key, its current value,
and whether a fresh row has been patched into it (patching removes the
key from the lookup map, and unpatched documents are deleted at the end).
-/
structure DocSlot (α κ : Type) where
  key : κ
  val : α
  patched : Bool

/-- Index the existing rows by key: the first row of each key is kept,
later rows with an already-seen key are deleted. -/
def dedupeByKey [DecidableEq κ] (key : α → κ) : List α → List α
  | [] => []
  | a :: rest => a :: dedupeByKey key (rest.filter (fun b => key b ≠ key a))
termination_by l => l.length
decreasing_by
  simp only [List.length_cons]
  exact Nat.lt_succ_of_le (List.length_filter_le _ _)

/-- Whether the lookup map still holds a document with this key. -/
def hasUnpatched [DecidableEq κ] (slots : List (DocSlot α κ)) (k : κ) : Bool :=
  slots.any (fun s => s.key = k ∧ s.patched = false)

/-- Patch the fresh row v into the first still-unpatched document with
key k; the patch payload replaces the whole row value. -/
def patchFirst [DecidableEq κ] (k : κ) (v : α) :
    List (DocSlot α κ) → List (DocSlot α κ)
  | [] => []
  | s :: rest =>
      if s.key = k ∧ s.patched = false then
        { s with val := v, patched := true } :: rest
      else s :: patchFirst k v rest

/-- The fresh-row loop: patch into an existing document when the key is
still in the map, otherwise insert. -/
def syncGo [DecidableEq κ] (key : α → κ) :
    List (DocSlot α κ) → List α → List α → List (DocSlot α κ) × List α
  | slots, inserted, [] => (slots, inserted)
  | slots, inserted, d :: ds =>
      if hasUnpatched slots (key d) then
        syncGo key (patchFirst (key d) d slots) inserted ds
      else
        syncGo key slots (inserted ++ [d]) ds

/-- The resulting slice: patched documents (with their fresh values) plus
inserted documents; unpatched documents are deleted. -/
def syncRows [DecidableEq κ] (key : α → κ) (existing desired : List α) :
    List α :=
  let slots := (dedupeByKey key existing).map
    (fun a => { key := key a, val := a, patched := false : DocSlot α κ })
  let r := syncGo key slots [] desired
  (r.1.filter (fun s => s.patched)).map (fun s => s.val) ++ r.2

/-- upsertSurveyAnalyticsDailyRow: insert when no row exists for the
slice, otherwise patch the first row with the full payload and delete the
duplicates; either way the slice afterwards is exactly the one row. -/
def upsertRow (existing : List α) (row : α) : List α :=
  match existing with
  | [] => [row]
  | _ :: _ => [row]

/-! ## The daily rebuild (rebuildDailyMaterializedAnalytics) -/

/-- One UTC day in milliseconds. -/
def dayMillis : ℤ := 86400000

/-- startOf(day).toMillis() for an epoch-day date key. -/
def dayStartMillis (dateKey : ℤ) : ℤ := dateKey * dayMillis

/-- endOf(day).toMillis() for an epoch-day date key. -/
def dayEndMillis (dateKey : ℤ) : ℤ := dateKey * dayMillis + (dayMillis - 1)

/-- getResponsesForSurveyDate: the responses of the survey submitted
within the UTC day. -/
def getResponsesForSurveyDate (responses : List ResponseDoc)
    (surveyId : ℕ) (dateKey : ℤ) : List ResponseDoc :=
  (responses.filter (fun r => r.surveyId = surveyId)).filter
    (fun r => dayStartMillis dateKey ≤ r.submittedAt ∧
      r.submittedAt ≤ dayEndMillis dateKey)

/-- ctx.db.get on the version cache: lookup of a surveyVersions doc. -/
def lookupVersion (versions : List VersionDoc) (versionId : ℕ) :
    Option VersionDoc :=
  versions.find? (fun v => v.id = versionId)

/-- [...version.fields].sort((a, b) => a.order - b.order); JS sort is
stable, as is mergeSort. -/
def sortFieldsByOrder (fields : List Field) : List Field :=
  fields.mergeSort (fun a b => decide (a.order ≤ b.order))

/-- TEXT_KINDS membership. -/
def isTextKind (k : FieldKind) : Bool :=
  k = .short_text ∨ k = .long_text

/-- A bucket cell of a field aggregate ({label, count}). -/
structure BucketCell where
  label : String
  count : ℕ
  deriving DecidableEq, Repr

/-- The in-memory FieldAggregate of the rebuild. -/
structure FieldAggregate where
  fieldId : String
  label : String
  kind : FieldKind
  order : ℕ
  reachedCount : ℕ
  answeredCount : ℕ
  bucketMap : AList String BucketCell
  textAnswers : List String
  optionOrder : List String
  optionLabels : AList String String
  deriving DecidableEq, Repr

/-- getOrCreateFieldAggregate: the existing aggregate for the field id,
or a fresh zeroed one registered in the map. -/
def getOrCreateFieldAggregate (aggs : AList String FieldAggregate)
    (field : Field) : AList String FieldAggregate × FieldAggregate :=
  match AList.get aggs field.id with
  | some existing => (aggs, existing)
  | none =>
      let next : FieldAggregate :=
        { fieldId := field.id
          label := field.label
          kind := field.kind
          order := field.order
          reachedCount := 0
          answeredCount := 0
          bucketMap := []
          textAnswers := []
          optionOrder := field.optionValues
          optionLabels := (field.options.getD []).map (fun o => (o.value, o.label)) }
      (AList.set aggs field.id next, next)

/-- String(value) for an integer-valued number, value.toFixed(2)
otherwise; toFixed is embedded as exact decimal rounding of the rational
value (the binary-float digit string is abstracted). -/
def ratDecimal2 (q : ℚ) : String :=
  let scaled : ℤ := round (q * 100)
  let a := scaled.natAbs
  (if scaled < 0 then "-" else "") ++ toString (a / 100) ++ "." ++
    (if a % 100 < 10 then "0" else "") ++ toString (a % 100)

/-- formatNumberBucket from the source. -/
def formatNumberBucket (n : JsNum) : String :=
  match n with
  | .fin q => if q.den = 1 then toString q.num else ratDecimal2 q
  | .posInf => "Infinity"
  | .negInf => "-Infinity"
  | .nan => "NaN"

/-- bucketEntriesForAnswer: the (key, label) bucket entries one present
answer contributes for a field. -/
def bucketEntriesForAnswer (field : Field) (answer : AnswerValue) :
    List (String × String) :=
  let optionLabelByValue : AList String String :=
    (field.options.getD []).map (fun o => (o.value, o.label))
  match field.kind with
  | .single_select =>
      match answer with
      | .str s =>
          let value := jsTrim s
          if value.length = 0 then []
          else [(value, (AList.get optionLabelByValue value).getD value)]
      | _ => []
  | .multi_select =>
      match answer with
      | .arr xs =>
          (xs.filter (fun entry => 0 < (jsTrim entry).length)).map
            (fun entry => (entry, (AList.get optionLabelByValue entry).getD entry))
      | _ => []
  | .number | .rating_1_5 =>
      match answer with
      | .num n =>
          if n.isNaN then []
          else
            let key := formatNumberBucket n
            [(key, key)]
      | _ => []
  | .short_text | .long_text | .email | .date =>
      [("__provided__", "Provided")]

/-- maxReachedOrder: starting from 0, the maximum order among fields of
the response with a present answer. -/
def maxReachedOrder (fields : List Field) (answers : AnswerMap) : ℕ :=
  fields.foldl
    (fun m f => if isAnswerPresent (answers.get f.id) then max m f.order else m) 0

/-- The condition under which the rebuild counts a field as reached by a
response: field.order <= maxReachedOrder. -/
def fieldReachedInResponse (fields : List Field) (answers : AnswerMap)
    (field : Field) : Bool :=
  field.order ≤ maxReachedOrder fields answers

/-- The reach predicate as the spec sentence words it, for comparison
with the code's fieldReachedInResponse: a field counts as reached if some
field at or before its order position has a present answer. -/
def specWordedReached (fields : List Field) (answers : AnswerMap)
    (field : Field) : Prop :=
  ∃ g ∈ fields, g.order ≤ field.order ∧ isAnswerPresent (answers.get g.id) = true

/-- One bucket increment of the response loop:
aggregate.bucketMap.set(key, {label, count+1}). -/
def bumpBucket (agg : FieldAggregate) (entry : String × String) :
    FieldAggregate :=
  let cell := (AList.get agg.bucketMap entry.1).getD { label := entry.2, count := 0 }
  { agg with bucketMap :=
      AList.set agg.bucketMap entry.1 { cell with count := cell.count + 1 } }

/-- The per-field body of the response loop: bump reached when the order
is within maxReachedOrder, and for a present answer bump answered, the
answer buckets, and the collected text answers. -/
def processField (answers : AnswerMap) (m : ℕ)
    (aggs : AList String FieldAggregate) (field : Field) :
    AList String FieldAggregate :=
  let p := getOrCreateFieldAggregate aggs field
  let agg0 := p.2
  let agg1 :=
    if field.order ≤ m then { agg0 with reachedCount := agg0.reachedCount + 1 }
    else agg0
  let answer := answers.get field.id
  let agg2 :=
    if isAnswerPresent answer then
      let a := answer.getD .null
      let withAnswered := { agg1 with answeredCount := agg1.answeredCount + 1 }
      let withBuckets := (bucketEntriesForAnswer field a).foldl bumpBucket withAnswered
      match a with
      | .str s =>
          if isTextKind field.kind ∧ 0 < (jsTrim s).length then
            { withBuckets with textAnswers := withBuckets.textAnswers ++ [s] }
          else withBuckets
      | _ => withBuckets
    else agg1
  AList.set p.1 field.id agg2

/-- The running accumulator of the response loop. -/
structure RebuildAccum where
  totalGraded : ℕ
  sumScorePercent : ℚ
  aggs : AList String FieldAggregate

/-- The body of the response loop: count graded responses, then (when the
version resolves and has fields) aggregate every field of the sorted
field list. -/
def processResponse (versions : List VersionDoc) (acc : RebuildAccum)
    (response : ResponseDoc) : RebuildAccum :=
  let acc :=
    match response.grading with
    | some g =>
        if 0 < g.gradableCount then
          { acc with
              totalGraded := acc.totalGraded + 1
              sumScorePercent := acc.sumScorePercent + g.scorePercent }
        else acc
    | none => acc
  match lookupVersion versions response.surveyVersionId with
  | none => acc
  | some version =>
      let fields := sortFieldsByOrder version.fields
      if fields.length = 0 then acc
      else
        let m := maxReachedOrder fields response.answers
        { acc with aggs := fields.foldl (processField response.answers m) acc.aggs }

/-- The full aggregation pass of a rebuild over the day's responses. -/
def rebuildAccum (versions : List VersionDoc) (allResponses : List ResponseDoc)
    (surveyId : ℕ) (dateKey : ℤ) : RebuildAccum :=
  (getResponsesForSurveyDate allResponses surveyId dateKey).foldl
    (processResponse versions)
    { totalGraded := 0, sumScorePercent := 0, aggs := [] }

/-- The fresh surveyAnalyticsDaily row of a rebuild: completed floored at
the response count, started floored at completed, the other counters
copied from the live metrics row. -/
def computeAnalyticsRow (surveyId : ℕ) (dateKey : ℤ) (now : ℤ)
    (metrics : Option MetricsDailyRow) (responseCount : ℕ)
    (totalGraded : ℕ) (sumScorePercent : ℚ) : AnalyticsDailyRow :=
  let completedCount := max ((metrics.map (fun m => m.completed)).getD 0) responseCount
  let startedCount := max ((metrics.map (fun m => m.started)).getD 0) completedCount
  let avgScorePercent : ℚ :=
    if 0 < totalGraded then
      (round (sumScorePercent / (totalGraded : ℚ) * 100) : ℚ) / 100
    else 0
  { surveyId := surveyId
    dateKey := dateKey
    started := startedCount
    completed := completedCount
    idle := (metrics.map (fun m => m.idle)).getD 0
    abandoned := (metrics.map (fun m => m.abandoned)).getD 0
    reactivated := (metrics.map (fun m => m.reactivated)).getD 0
    avgScorePercent := avgScorePercent
    totalGraded := totalGraded
    updatedAt := now }

/-- The fresh surveyFieldAnalyticsDaily rows: aggregates sorted by field
order, dropoff = max(reached - answered, 0) (Nat subtraction here). -/
def computeFieldRows (surveyId : ℕ) (dateKey : ℤ) (now : ℤ)
    (aggs : AList String FieldAggregate) : List FieldDailyRow :=
  ((AList.values aggs).mergeSort (fun a b => decide (a.order ≤ b.order))).map
    (fun a =>
      { surveyId := surveyId
        fieldId := a.fieldId
        dateKey := dateKey
        reachedCount := a.reachedCount
        answeredCount := a.answeredCount
        dropoffCount := a.reachedCount - a.answeredCount
        updatedAt := now })

/-- The zero-count pad row for a configured option value of a select
field. -/
def optionPadRow (surveyId : ℕ) (dateKey : ℤ) (now : ℤ)
    (agg : FieldAggregate) (optionValue : String) : BucketDailyRow :=
  { surveyId := surveyId
    fieldId := agg.fieldId
    dateKey := dateKey
    bucketKey := optionValue
    bucketLabel := (AList.get agg.optionLabels optionValue).getD optionValue
    count := 0
    updatedAt := now }

/-- The zero-count pad row for a rating value 1..5. -/
def ratingPadRow (surveyId : ℕ) (dateKey : ℤ) (now : ℤ)
    (agg : FieldAggregate) (rating : String) : BucketDailyRow :=
  { surveyId := surveyId
    fieldId := agg.fieldId
    dateKey := dateKey
    bucketKey := rating
    bucketLabel := rating
    count := 0
    updatedAt := now }

/-- The fresh bucket rows of one aggregate: the observed buckets, padded
with zero-count rows for every configured option (select kinds) and for
the ratings 1..5 (rating kind); a pad is skipped when a row with the same
combined fieldId::bucketKey string is already present. -/
def bucketRowsForAggregate (surveyId : ℕ) (dateKey : ℤ) (now : ℤ)
    (agg : FieldAggregate) : List BucketDailyRow :=
  let rows : List BucketDailyRow := agg.bucketMap.map
    (fun p =>
      { surveyId := surveyId
        fieldId := agg.fieldId
        dateKey := dateKey
        bucketKey := p.1
        bucketLabel := p.2.label
        count := p.2.count
        updatedAt := now })
  let rows :=
    if agg.kind = .single_select ∨ agg.kind = .multi_select then
      agg.optionOrder.foldl
        (fun rows optionValue =>
          if rows.any (fun row =>
              row.fieldId ++ "::" ++ row.bucketKey =
                agg.fieldId ++ "::" ++ optionValue) then rows
          else rows ++ [optionPadRow surveyId dateKey now agg optionValue])
        rows
    else rows
  if agg.kind = .rating_1_5 then
    (["1", "2", "3", "4", "5"]).foldl
      (fun rows rating =>
        if rows.any (fun row =>
            row.fieldId ++ "::" ++ row.bucketKey =
              agg.fieldId ++ "::" ++ rating) then rows
        else rows ++ [ratingPadRow surveyId dateKey now agg rating])
      rows
  else rows

/-- The fresh surveyAnswerBucketsDaily rows of a rebuild. -/
def computeBucketRows (surveyId : ℕ) (dateKey : ℤ) (now : ℤ)
    (aggs : AList String FieldAggregate) : List BucketDailyRow :=
  (AList.values aggs).flatMap (bucketRowsForAggregate surveyId dateKey now)

/-! Text insights: tokenizer, top phrases and snippets.  The stop-word
list is STOP_WORDS from the source; the regex-based snippet
sanitizer (whitespace collapse, ASCII filter, email/phone redaction,
truncation) is an effect of the host regex engine and is taken as a
function parameter; locale string collation (localeCompare) is embedded
as code-point order. -/

/-- The STOP_WORDS set. -/
def STOP_WORDS : List String :=
  ["a", "an", "and", "are", "as", "at", "be", "by", "for", "from", "how",
   "i", "in", "is", "it", "of", "on", "or", "that", "the", "this", "to",
   "was", "we", "were", "what", "when", "where", "which", "with", "you",
   "your"]

/-- Code-point lexicographic order on strings. -/
def strLexLt : List Char → List Char → Bool
  | [], [] => false
  | [], _ :: _ => true
  | _ :: _, [] => false
  | a :: as, b :: bs => if a = b then strLexLt as bs else decide (a < b)

/-- Comparator b[1]-a[1] || a[0].localeCompare(b[0]) as a total preorder:
count descending, then key ascending. -/
def countDescThenKey (a b : String × ℕ) : Bool :=
  if a.2 = b.2 then ! strLexLt b.1.toList a.1.toList else decide (b.2 < a.2)

/-- tokenize: lower-case, keep [a-z0-9] mapping everything else to a
space, split on whitespace, keep tokens of length >= 3 that are not stop
words. -/
def tokenize (value : String) : List String :=
  let lowered := jsToLower value
  let cleaned := String.mk (lowered.toList.map
    (fun c => if (('a' ≤ c ∧ c ≤ 'z') ∨ ('0' ≤ c ∧ c ≤ '9')) then c else ' '))
  ((cleaned.split (fun c => c.isWhitespace)).filter
      (fun token => 3 ≤ token.length)).filter
    (fun token => ! STOP_WORDS.contains token)

/-- map.set(k, (map.get(k) ?? 0) + 1). -/
def countInto (m : AList String ℕ) (k : String) : AList String ℕ :=
  AList.set m k ((AList.get m k).getD 0 + 1)

/-- topPhraseRows: unigram and bigram counts over all values, ranked by
count then key, capped. -/
def topPhraseRows (cap : ℕ) (values : List String) : List (String × ℕ) :=
  let phraseCounts := values.foldl
    (fun m value =>
      let tokens := tokenize value
      let m := tokens.foldl countInto m
      ((List.range (tokens.length - 1)).map
          (fun index => tokens.getD index "" ++ " " ++ tokens.getD (index + 1) "")).foldl
        countInto m)
    []
  ((phraseCounts : List (String × ℕ)).mergeSort countDescThenKey).take cap

/-- snippetRows: sanitized snippets deduplicated with counts, ranked by
count then key, capped. -/
def snippetRows (cap : ℕ) (sanitize : String → String) (values : List String) :
    List (String × ℕ) :=
  let counts := values.foldl
    (fun m rawValue =>
      let snippet := sanitize rawValue
      if snippet.length = 0 then m else countInto m snippet)
    []
  ((counts : List (String × ℕ)).mergeSort countDescThenKey).take cap

/-- The fresh surveyTextInsightsDaily rows of a rebuild. -/
def computeTextRows (maxPhrases maxSnippets : ℕ) (sanitize : String → String)
    (surveyId : ℕ) (dateKey : ℤ) (now : ℤ)
    (aggs : AList String FieldAggregate) : List TextDailyRow :=
  ((AList.values aggs).filter (fun a => isTextKind a.kind)).map
    (fun a =>
      { surveyId := surveyId
        fieldId := a.fieldId
        dateKey := dateKey
        topPhrases := topPhraseRows maxPhrases a.textAnswers
        sampledSnippets := snippetRows maxSnippets sanitize a.textAnswers
        updatedAt := now })

/-- The per-(surveyId, dateKey) slice of the four rollup tables the
rebuild writes. -/
structure RollupState where
  analyticsRows : List AnalyticsDailyRow
  fieldRows : List FieldDailyRow
  bucketRows : List BucketDailyRow
  textRows : List TextDailyRow
  deriving DecidableEq, Repr

/-- rebuildDailyMaterializedAnalytics for one (surveyId, dateKey), with a
fixed now.  maxPhrases/maxSnippets stand for ANALYTICS_MAX_TOP_PHRASES and
ANALYTICS_MAX_TEXT_SNIPPETS of lib/constants.ts (values not in the
sources), sanitize for sanitizeTextSnippet. -/
def rebuildDailyMaterializedAnalytics (maxPhrases maxSnippets : ℕ)
    (sanitize : String → String)
    (versions : List VersionDoc) (allResponses : List ResponseDoc)
    (metrics : Option MetricsDailyRow)
    (surveyId : ℕ) (dateKey : ℤ) (now : ℤ) (includeTextInsights : Bool)
    (st : RollupState) : RollupState :=
  let responses := getResponsesForSurveyDate allResponses surveyId dateKey
  let acc := rebuildAccum versions allResponses surveyId dateKey
  { analyticsRows := upsertRow st.analyticsRows
      (computeAnalyticsRow surveyId dateKey now metrics responses.length
        acc.totalGraded acc.sumScorePercent)
    fieldRows := syncRows (fun r => r.fieldId) st.fieldRows
      (computeFieldRows surveyId dateKey now acc.aggs)
    bucketRows := syncRows (fun r => r.fieldId ++ "::" ++ r.bucketKey) st.bucketRows
      (computeBucketRows surveyId dateKey now acc.aggs)
    textRows :=
      if includeTextInsights then
        syncRows (fun r => r.fieldId) st.textRows
          (computeTextRows maxPhrases maxSnippets sanitize surveyId dateKey now acc.aggs)
      else st.textRows }

/-! ## Structured error codes raised by the mutations and queries -/

/-- ConvexError codes of the call paths embedded here. -/
inductive ErrCode where
  | NOT_FOUND
  | SESSION_COMPLETED
  | INVITE_EXPIRED
  | INVITE_EXHAUSTED
  | INVITE_UNAVAILABLE
  | INVALID_ANSWER
  | MISSING_REQUIRED_FIELD
  | INVALID_DATE_RANGE
  | ANALYTICS_WINDOW_TOO_LARGE
  | ANALYTICS_EXPORT_TOO_LARGE
  | FIELD_NOT_FOUND
  deriving DecidableEq, Repr

/-! ## Invite consumption (submitSession, src/convex/respondent.ts) -/

/-- Invite status values. -/
inductive InviteStatus where
  | active
  | revoked
  | exhausted
  | expired
  deriving DecidableEq, Repr

/-- The invite fields submitSession reads and writes. -/
structure Invite where
  status : InviteStatus
  completionCount : ℕ
  maxCompletions : ℕ
  expiresAt : Option ℤ
  deriving DecidableEq, Repr

/-- The effect of one submitSession call on its invite, given the clock
and whether the post-invite steps (answer-map parse, per-field
validation, required-field presence) succeed.  The result is the invite
as persisted by the mutation plus the error raised, none meaning the
submit succeeded.  Mirrors respondent.ts: lazily flip to expired or
exhausted and raise; reject a non-active invite; on success increment
completionCount and flip to exhausted exactly when the new count reaches
the cap. -/
def submitSessionInvite (now : ℤ) (answersValid : Bool) (inv : Invite) :
    Invite × Option ErrCode :=
  if inv.status = .active ∧ optTest inv.expiresAt (fun e => decide (e < now)) then
    ({ inv with status := .expired }, some .INVITE_EXPIRED)
  else if inv.maxCompletions ≤ inv.completionCount then
    ({ inv with status := .exhausted }, some .INVITE_EXHAUSTED)
  else if inv.status ≠ .active then
    (inv, some .INVITE_UNAVAILABLE)
  else if ¬ answersValid then
    (inv, some .INVALID_ANSWER)
  else
    let nextCompletionCount := inv.completionCount + 1
    let inviteNowExhausted := inv.maxCompletions ≤ nextCompletionCount
    ({ inv with
        completionCount := nextCompletionCount
        status := if inviteNowExhausted then .exhausted else inv.status }, none)

/-- A sequence of submitSession calls against one invite: each element is
the call's clock value and whether its validation steps succeed. -/
def runSubmitOps (ops : List (ℤ × Bool)) (inv : Invite) : Invite :=
  ops.foldl (fun i op => (submitSessionInvite op.1 op.2 i).1) inv

/-! ## Session state machine (src/convex/respondent.ts,
src/convex/sessions.ts) -/

/-- Session status values. -/
inductive SessionStatus where
  | in_progress
  | idle
  | abandoned
  | completed
  deriving DecidableEq, Repr

/-- The session fields the lifecycle operations read and write. -/
structure Session where
  status : SessionStatus
  startedAt : ℤ
  lastActivityAt : ℤ
  completedAt : Option ℤ
  answersDraft : AnswerMap
  deriving DecidableEq, Repr

/-- transitionSession (sessions.ts) on a resolved session: when the
status already equals the target the session is untouched and false is
returned (the function never raises); otherwise the status is patched and
true is returned. -/
def transitionSessionFn (toStatus : SessionStatus) (at_ : ℤ) (s : Session) :
    Session × Bool :=
  if s.status = toStatus then (s, false)
  else
    ({ s with
        status := toStatus
        lastActivityAt := at_
        completedAt := if toStatus = .completed then some at_ else s.completedAt },
      true)

/-- One system operation as it affects a single targeted session.
Operations whose guards fail leave the session untouched: respondent
writes raise SESSION_COMPLETED on a completed session, saveAnswer leaves
no write behind when validation fails (valid = false), submit leaves no
session write behind when its invite or validation checks fail
(ok = false), and a sweep only touches a session its batch selected. -/
inductive SessionOp where
  | startOrResume (now : ℤ)
  | saveAnswer (now : ℤ) (fieldId : String) (value : AnswerValue) (valid : Bool)
  | submit (now : ℤ) (ok : Bool)
  | idleSweep (now : ℤ) (selected : Bool)
  | abandonSweep (now : ℤ) (selected : Bool)
  deriving DecidableEq, Repr

/-- The per-session transition function of the operations above. -/
def sessionStep : SessionOp → Session → Session
  | .startOrResume now, s =>
      if s.status = .completed then s
      else
        let toStatus :=
          if s.status = .idle ∨ s.status = .abandoned then SessionStatus.in_progress
          else s.status
        { s with status := toStatus, lastActivityAt := now }
  | .saveAnswer now fieldId value valid, s =>
      if s.status = .completed ∨ valid = false then s
      else
        let nextStatus :=
          if s.status = .idle ∨ s.status = .abandoned then SessionStatus.in_progress
          else s.status
        { s with
            status := nextStatus
            lastActivityAt := now
            answersDraft := AList.set s.answersDraft fieldId value }
  | .submit now ok, s =>
      if s.status = .completed ∨ ok = false then s
      else { s with status := .completed, completedAt := some now, lastActivityAt := now }
  | .idleSweep now selected, s =>
      if selected then (transitionSessionFn .idle now s).1 else s
  | .abandonSweep now selected, s =>
      if selected then (transitionSessionFn .abandoned now s).1 else s

/-- markIdleBatch over a session table (document id, session): select up
to limit in_progress sessions idle past the cutoff and transition each to
idle.  idleThresholdMs stands for IDLE_THRESHOLD_MS of lib/constants.ts.
-/
def markIdleBatch (now idleThresholdMs : ℤ) (limitArg : Option ℕ)
    (table : List (ℕ × Session)) : List (ℕ × Session) :=
  let cutoff := now - idleThresholdMs
  let limit := max 1 (min (limitArg.getD 200) 1000)
  let selected := ((table.filter
      (fun p => p.2.status = .in_progress ∧ p.2.lastActivityAt < cutoff)).take limit).map
    (fun p => p.1)
  table.map (fun p =>
    if selected.contains p.1 then (p.1, (transitionSessionFn .idle now p.2).1) else p)

/-- markAbandonedBatch: idle sessions past the cutoff first, then
in_progress ones with the remaining budget, each transitioned to
abandoned. -/
def markAbandonedBatch (now abandonedThresholdMs : ℤ) (limitArg : Option ℕ)
    (table : List (ℕ × Session)) : List (ℕ × Session) :=
  let cutoff := now - abandonedThresholdMs
  let limit := max 1 (min (limitArg.getD 200) 1000)
  let idleSelected := ((table.filter
      (fun p => p.2.status = .idle ∧ p.2.lastActivityAt < cutoff)).take limit).map
    (fun p => p.1)
  let remaining := limit - idleSelected.length
  let inProgressSelected :=
    if 0 < remaining then
      ((table.filter
          (fun p => p.2.status = .in_progress ∧ p.2.lastActivityAt < cutoff)).take
        remaining).map (fun p => p.1)
    else []
  let selected := idleSelected ++ inProgressSelected
  table.map (fun p =>
    if selected.contains p.1 then (p.1, (transitionSessionFn .abandoned now p.2).1) else p)

/-! ## Outbox dispatcher (src/convex/analytics.ts, src/convex/lib/domain.ts) -/

/-- Outbox row status. -/
inductive OutboxStatus where
  | pending
  | sent
  | failed
  deriving DecidableEq, Repr

/-- An analyticsOutbox row. -/
structure OutboxRow where
  eventName : String
  status : OutboxStatus
  attemptCount : ℕ
  nextAttemptAt : ℤ
  createdAt : ℤ
  sentAt : Option ℤ
  lastError : Option String
  deriving DecidableEq, Repr

/-- enqueueAnalyticsEvent: a fresh pending row due immediately. -/
def enqueueAnalyticsEvent (now : ℤ) (eventName : String) : OutboxRow :=
  { eventName := eventName
    status := .pending
    attemptCount := 0
    nextAttemptAt := now
    createdAt := now
    sentAt := none
    lastError := none }

/-- recordOutboxDispatch on a resolved row: on success mark sent; on
failure increment the attempt count, back off by
min(2^min(attempts,10) seconds, 30 minutes), and mark failed permanently
once the new count reaches 8. -/
def recordOutboxDispatch (now : ℤ) (success : Bool)
    (errorMessage : Option String) (row : OutboxRow) : OutboxRow :=
  if success then
    { row with
        status := .sent
        sentAt := some now
        attemptCount := row.attemptCount + 1
        lastError := none }
  else
    let attemptCount := row.attemptCount + 1
    let retryDelayMs : ℤ := min ((2 : ℤ) ^ (min attemptCount 10) * 1000) (30 * 60 * 1000)
    let shouldFailPermanently := 8 ≤ attemptCount
    { row with
        status := if shouldFailPermanently then .failed else .pending
        attemptCount := attemptCount
        nextAttemptAt := now + retryDelayMs
        lastError := errorMessage }

/-- listDueOutboxEvents: pending rows due now, up to the batch cap
(batchCap stands for POSTHOG_BATCH_LIMIT of lib/constants.ts). -/
def listDueOutboxEvents (now : ℤ) (limitArg : Option ℕ) (batchCap : ℕ)
    (rows : List OutboxRow) : List OutboxRow :=
  let limit := max 1 (min (limitArg.getD batchCap) batchCap)
  (rows.filter (fun r => r.status = .pending ∧ r.nextAttemptAt ≤ now)).take limit

/-! ## Analytics date ranges (parseAnalyticsDateRange,
src/convex/lib/analytics_materialization.ts)

Date keys are epoch-day integers; normalizeDateKey (ISO parsing) is the
identity here since every integer stands for a valid date. -/

/-- A parsed analytics date range. -/
structure DateRange where
  fromDate : ℤ
  toDate : ℤ
  fromMillis : ℤ
  toMillis : ℤ
  dayKeys : List ℤ
  deriving DecidableEq, Repr

/-- buildDateKeys: every day from fromDate to toDate inclusive, empty
when the range is inverted. -/
def buildDateKeys (fromDate toDate : ℤ) : List ℤ :=
  if fromDate ≤ toDate then
    (List.range (toDate - fromDate + 1).toNat).map (fun (i : ℕ) => fromDate + (i : ℤ))
  else []

/-- parseAnalyticsDateRange: reject inverted ranges, reject windows wider
than maxDays with ANALYTICS_WINDOW_TOO_LARGE. -/
def parseAnalyticsDateRange (maxDays : ℕ) (fromDate toDate : ℤ) :
    Except ErrCode DateRange :=
  let dayKeys := buildDateKeys fromDate toDate
  if dayKeys.length = 0 then .error .INVALID_DATE_RANGE
  else if maxDays < dayKeys.length then .error .ANALYTICS_WINDOW_TOO_LARGE
  else
    .ok { fromDate := fromDate
          toDate := toDate
          fromMillis := dayStartMillis fromDate
          toMillis := dayEndMillis toDate
          dayKeys := dayKeys }

/-- The number of UTC calendar days a requested range spans. -/
def spanDays (fromDate toDate : ℤ) : ℕ :=
  if fromDate ≤ toDate then (toDate - fromDate + 1).toNat else 0

/-! ## Admin analytics read queries (src/convex/analytics.ts)

The queries are embedded from the point after authentication and
survey-access checks; each takes the whole database state and reads the
tables its handler queries.  String formatting of CSV cells and filenames
is abstracted: cells keep their typed values. -/

/-- The database state visible to the analytics read queries. -/
structure Db where
  surveyAnalyticsDaily : List AnalyticsDailyRow
  surveyFieldAnalyticsDaily : List FieldDailyRow
  surveyAnswerBucketsDaily : List BucketDailyRow
  surveyTextInsightsDaily : List TextDailyRow
  surveyVersions : List VersionDoc
  surveyResponses : List ResponseDoc
  deriving DecidableEq, Repr

/-- Math.round(value * 100) / 100. -/
def roundToTwo (value : ℚ) : ℚ :=
  (round (value * 100) : ℚ) / 100

/-- toPercent: round(value/total*10000)/100, and 0 when the denominator
is not positive. -/
def toPercent (value total : ℚ) : ℚ :=
  if total ≤ 0 then 0 else roundToTwo (value / total * 100)

/-- loadDailyAnalyticsRows: the surveyAnalyticsDaily slice of the survey
over the date range. -/
def loadDailyAnalyticsRows (rows : List AnalyticsDailyRow) (surveyId : ℕ)
    (fromDate toDate : ℤ) : List AnalyticsDailyRow :=
  rows.filter (fun r => r.surveyId = surveyId ∧ fromDate ≤ r.dateKey ∧ r.dateKey ≤ toDate)

/-- The funnel totals and result of getSurveyFunnel. -/
structure FunnelResult where
  started : ℕ
  completed : ℕ
  idle : ℕ
  abandoned : ℕ
  reactivated : ℕ
  conversionRate : ℚ
  deriving DecidableEq, Repr

/-- The totals reduce of getSurveyFunnel. -/
def funnelTotals (rows : List AnalyticsDailyRow) : ℕ × ℕ × ℕ × ℕ × ℕ :=
  rows.foldl
    (fun acc row =>
      (acc.1 + row.started, acc.2.1 + row.completed, acc.2.2.1 + row.idle,
        acc.2.2.2.1 + row.abandoned, acc.2.2.2.2 + row.reactivated))
    (0, 0, 0, 0, 0)

/-- getSurveyFunnel: totals of the rollup slice plus the derived
conversion rate. -/
def getSurveyFunnel (maxDays : ℕ) (db : Db) (surveyId : ℕ)
    (fromDate toDate : ℤ) : Except ErrCode FunnelResult :=
  match parseAnalyticsDateRange maxDays fromDate toDate with
  | .error e => .error e
  | .ok range =>
      let rows := loadDailyAnalyticsRows db.surveyAnalyticsDaily surveyId
        range.fromDate range.toDate
      let t := funnelTotals rows
      .ok { started := t.1
            completed := t.2.1
            idle := t.2.2.1
            abandoned := t.2.2.2.1
            reactivated := t.2.2.2.2
            conversionRate := toPercent (t.2.1 : ℚ) (t.1 : ℚ) }

/-- The result of getSurveyScoringSummary. -/
structure ScoringSummary where
  gradedResponses : ℕ
  avgScorePercent : ℚ
  totalCorrect : ℕ
  totalIncorrect : ℕ
  deriving DecidableEq, Repr

/-- The rollup-derived half of getSurveyScoringSummary. -/
def scoringRollupPart (rows : List AnalyticsDailyRow) : ℕ × ℚ :=
  let gradedResponses := rows.foldl (fun sum row => sum + row.totalGraded) (0 : ℕ)
  let scoreWeightedSum : ℚ :=
    rows.foldl (fun sum row => sum + row.avgScorePercent * (row.totalGraded : ℚ)) 0
  let avgScorePercent :=
    if 0 < gradedResponses then roundToTwo (scoreWeightedSum / (gradedResponses : ℚ))
    else 0
  (gradedResponses, avgScorePercent)

/-- The raw-response half of getSurveyScoringSummary: total correct and
incorrect counts summed from the grading payloads of the raw
surveyResponses rows in the range. -/
def scoringRawPart (responses : List ResponseDoc) (surveyId : ℕ)
    (fromMillis toMillis : ℤ) : ℕ × ℕ :=
  let filtered := (responses.filter (fun r => r.surveyId = surveyId)).filter
    (fun r => fromMillis ≤ r.submittedAt ∧ r.submittedAt ≤ toMillis)
  (filtered.foldl (fun sum row => sum + ((row.grading.map (fun g => g.correctCount)).getD 0)) 0,
    filtered.foldl (fun sum row => sum + ((row.grading.map (fun g => g.incorrectCount)).getD 0)) 0)

/-- getSurveyScoringSummary: gradedResponses and avgScorePercent from the
surveyAnalyticsDaily rollups, totalCorrect and totalIncorrect from the
raw surveyResponses rows (the compatibility path of the source). -/
def getSurveyScoringSummary (maxDays : ℕ) (db : Db) (surveyId : ℕ)
    (fromDate toDate : ℤ) : Except ErrCode ScoringSummary :=
  match parseAnalyticsDateRange maxDays fromDate toDate with
  | .error e => .error e
  | .ok range =>
      let rollup := scoringRollupPart
        (loadDailyAnalyticsRows db.surveyAnalyticsDaily surveyId
          range.fromDate range.toDate)
      let raw := scoringRawPart db.surveyResponses surveyId
        range.fromMillis range.toMillis
      .ok { gradedResponses := rollup.1
            avgScorePercent := rollup.2
            totalCorrect := raw.1
            totalIncorrect := raw.2 }

/-- One point of getSurveyTrendSeries. -/
structure TrendPoint where
  dateKey : ℤ
  started : ℕ
  completed : ℕ
  idle : ℕ
  abandoned : ℕ
  conversionRate : ℚ
  avgScorePercent : ℚ
  deriving DecidableEq, Repr

/-- new Map(rows.map(row => [row.dateKey, row])): later rows overwrite
earlier ones with the same key. -/
def rowsByDate (rows : List AnalyticsDailyRow) : AList ℤ AnalyticsDailyRow :=
  rows.foldl (fun m row => AList.set m row.dateKey row) []

/-- getSurveyTrendSeries: one point per day key of the range, zero-filled
for days without a rollup row. -/
def getSurveyTrendSeries (maxDays : ℕ) (db : Db) (surveyId : ℕ)
    (fromDate toDate : ℤ) : Except ErrCode (List TrendPoint) :=
  match parseAnalyticsDateRange maxDays fromDate toDate with
  | .error e => .error e
  | .ok range =>
      let rows := loadDailyAnalyticsRows db.surveyAnalyticsDaily surveyId
        range.fromDate range.toDate
      let byDate := rowsByDate rows
      .ok (range.dayKeys.map (fun dateKey =>
        let row := AList.get byDate dateKey
        let started := ((row.map (fun r => r.started)).getD 0)
        let completed := ((row.map (fun r => r.completed)).getD 0)
        { dateKey := dateKey
          started := started
          completed := completed
          idle := ((row.map (fun r => r.idle)).getD 0)
          abandoned := ((row.map (fun r => r.abandoned)).getD 0)
          conversionRate := toPercent (completed : ℚ) (started : ℚ)
          avgScorePercent := ((row.map (fun r => r.avgScorePercent)).getD 0) }))

/-- Field metadata as collected by getSurveyFieldMetaMap. -/
structure FieldMeta where
  label : String
  kind : FieldKind
  order : ℕ
  optionOrder : List String
  optionLabels : AList String String
  deriving DecidableEq, Repr

/-- getSurveyFieldMetaMap: versions of the survey sorted newest first;
the first version mentioning a field id wins. -/
def getSurveyFieldMetaMap (versions : List VersionDoc) (surveyId : ℕ) :
    AList String FieldMeta :=
  let byVersion := (versions.filter (fun v => v.surveyId = surveyId)).mergeSort
    (fun a b => decide (b.version ≤ a.version))
  byVersion.foldl
    (fun map version =>
      version.fields.foldl
        (fun map field =>
          match AList.get map field.id with
          | some _ => map
          | none =>
              AList.set map field.id
                { label := field.label
                  kind := field.kind
                  order := field.order
                  optionOrder := field.optionValues
                  optionLabels := (field.options.getD []).map (fun o => (o.value, o.label)) })
        map)
    []

/-- An un-normalized bucket (key, label, count). -/
structure BareBucket where
  key : String
  label : String
  count : ℕ
  deriving DecidableEq, Repr

/-- optionOrder.indexOf(key), -1 when absent. -/
def indexOfZ (l : List String) (s : String) : ℤ :=
  match l.findIdx? (fun x => x = s) with
  | some i => (i : ℤ)
  | none => -1

/-- Number(string) for bucket keys: a decimal numeral with optional sign
and fraction, or Infinity; everything else is NaN. -/
def jsNumberOfString (s : String) : JsNum :=
  if s = "Infinity" then .posInf
  else if s = "-Infinity" then .negInf
  else
    let cs := s.toList
    let body := if cs.headD ' ' = '-' then cs.tail else cs
    let intPart := body.takeWhile (fun c => c.isDigit)
    let rest := body.drop intPart.length
    let fracPart := if rest.headD ' ' = '.' then rest.tail else []
    let wellFormed :=
      0 < intPart.length ∧ intPart.all (fun c => c.isDigit) ∧
        (rest.length = 0 ∨ (rest.headD ' ' = '.' ∧ 0 < fracPart.length ∧
          fracPart.all (fun c => c.isDigit)))
    if wellFormed then
      let digitsVal := fun (ds : List Char) =>
        ds.foldl (fun acc c => acc * 10 + (c.toNat - 48)) (0 : ℕ)
      let magnitude : ℚ := (digitsVal intPart : ℚ) +
        (digitsVal fracPart : ℚ) / ((10 : ℚ) ^ fracPart.length)
      .fin (if cs.headD ' ' = '-' then -magnitude else magnitude)
    else .nan

/-- The comparator Number(a.key) - Number(b.key) as a stable-sort keep
relation (NaN differences keep the existing order). -/
def bucketNumLe (a b : BareBucket) : Bool :=
  ! (jsNumberOfString b.key).lt (jsNumberOfString a.key)

/-- The comparator b.count - a.count || a.label.localeCompare(b.label). -/
def countDescThenLabel (a b : BareBucket) : Bool :=
  if a.count = b.count then ! strLexLt b.label.toList a.label.toList
  else decide (b.count < a.count)

/-- normalizeBucketRows: pad select options and rating values with
zero-count buckets and order them; other kinds are ordered by count and
capped at 20 with an Other rollup bucket. -/
def normalizeBucketRows (kind : FieldKind) (optionOrder : List String)
    (optionLabels : AList String String) (buckets : List BareBucket) :
    List BareBucket :=
  if kind = .single_select ∨ kind = .multi_select then
    let normalized := optionOrder.foldl
      (fun normalized optionValue =>
        if normalized.any (fun bucket => bucket.key = optionValue) then normalized
        else
          normalized ++
            [{ key := optionValue
               label := (AList.get optionLabels optionValue).getD optionValue
               count := 0 }])
      buckets
    normalized.mergeSort
      (fun a b => decide (indexOfZ optionOrder a.key ≤ indexOfZ optionOrder b.key))
  else if kind = .rating_1_5 then
    let normalized := (["1", "2", "3", "4", "5"]).foldl
      (fun normalized rating =>
        if normalized.any (fun bucket => bucket.key = rating) then normalized
        else normalized ++ [{ key := rating, label := rating, count := 0 }])
      buckets
    normalized.mergeSort bucketNumLe
  else
    let normalized := buckets.mergeSort countDescThenLabel
    if 20 < normalized.length then
      let top := normalized.take 19
      let otherCount := (normalized.drop 19).foldl (fun sum row => sum + row.count) (0 : ℕ)
      if 0 < otherCount then top ++ [{ key := "__other__", label := "Other", count := otherCount }]
      else top
    else normalized

/-- A normalized bucket with its percentage of the answered total. -/
structure PercentBucket where
  key : String
  label : String
  count : ℕ
  percent : ℚ
  deriving DecidableEq, Repr

/-- One row of the materialized answer breakdown. -/
structure FieldBreakdownRow where
  fieldId : String
  label : String
  kind : FieldKind
  order : ℕ
  totalAnswered : ℕ
  buckets : List PercentBucket
  deriving DecidableEq, Repr

/-- buildAnswerBreakdownFromMaterialized: per-field answered totals from
surveyFieldAnalyticsDaily, per-field bucket counts from
surveyAnswerBucketsDaily, metadata from the version history; fields
without answers or metadata are dropped; rows sorted by field order. -/
def buildAnswerBreakdownFromMaterialized (versions : List VersionDoc)
    (fieldTable : List FieldDailyRow) (bucketTable : List BucketDailyRow)
    (surveyId : ℕ) (fromDate toDate : ℤ) : List FieldBreakdownRow :=
  let fieldMeta := getSurveyFieldMetaMap versions surveyId
  let fieldRows := fieldTable.filter
    (fun r => r.surveyId = surveyId ∧ fromDate ≤ r.dateKey ∧ r.dateKey ≤ toDate)
  let bucketRows := bucketTable.filter
    (fun r => r.surveyId = surveyId ∧ fromDate ≤ r.dateKey ∧ r.dateKey ≤ toDate)
  let answeredByField : AList String ℕ := fieldRows.foldl
    (fun m row => AList.set m row.fieldId ((AList.get m row.fieldId).getD 0 + row.answeredCount))
    []
  let bucketMapByField : AList String (AList String BucketCell) := bucketRows.foldl
    (fun m row =>
      let perField := (AList.get m row.fieldId).getD []
      let existing := (AList.get perField row.bucketKey).getD
        { label := row.bucketLabel, count := 0 }
      AList.set m row.fieldId
        (AList.set perField row.bucketKey
          { label := row.bucketLabel, count := existing.count + row.count }))
    []
  let fieldIds := dedupeByKey (fun s => s)
    (AList.keys answeredByField ++ AList.keys bucketMapByField)
  let rows := fieldIds.filterMap (fun fieldId =>
    match AList.get fieldMeta fieldId with
    | none => none
    | some meta =>
        let totalAnswered := (AList.get answeredByField fieldId).getD 0
        if totalAnswered = 0 then none
        else
          let buckets := ((AList.get bucketMapByField fieldId).getD []).map
            (fun p => { key := p.1, label := p.2.label, count := p.2.count : BareBucket })
          let normalized := normalizeBucketRows meta.kind meta.optionOrder
            meta.optionLabels buckets
          some
            { fieldId := fieldId
              label := meta.label
              kind := meta.kind
              order := meta.order
              totalAnswered := totalAnswered
              buckets := normalized.map (fun bucket =>
                { key := bucket.key
                  label := bucket.label
                  count := bucket.count
                  percent := toPercent (bucket.count : ℚ) (totalAnswered : ℚ) }) })
  rows.mergeSort (fun a b => decide (a.order ≤ b.order))

/-- The public shape of one getSurveyAnswerBreakdown row (order is
internal). -/
structure AnswerBreakdownRow where
  fieldId : String
  label : String
  kind : FieldKind
  totalAnswered : ℕ
  buckets : List PercentBucket
  deriving DecidableEq, Repr

/-- getSurveyAnswerBreakdown. -/
def getSurveyAnswerBreakdown (maxDays : ℕ) (db : Db) (surveyId : ℕ)
    (fromDate toDate : ℤ) : Except ErrCode (List AnswerBreakdownRow) :=
  match parseAnalyticsDateRange maxDays fromDate toDate with
  | .error e => .error e
  | .ok range =>
      .ok ((buildAnswerBreakdownFromMaterialized db.surveyVersions
          db.surveyFieldAnalyticsDaily db.surveyAnswerBucketsDaily surveyId
          range.fromDate range.toDate).map
        (fun row =>
          { fieldId := row.fieldId
            label := row.label
            kind := row.kind
            totalAnswered := row.totalAnswered
            buckets := row.buckets }))

/-- The result of getSurveyFieldBreakdown. -/
structure FieldBreakdownResult where
  fieldId : String
  label : String
  kind : FieldKind
  totalAnswered : ℕ
  buckets : List PercentBucket
  dailyTrend : List (ℤ × ℕ)
  topPhrases : Option (List (String × ℕ))
  sampledText : Option (List (String × ℕ))
  deriving DecidableEq, Repr

set_option maxHeartbeats 1000000 in
/-- getSurveyFieldBreakdown: one field's rollup slice, its normalized
buckets capped by the requested limit, a daily answered trend, and for
text kinds the aggregated phrases and snippets of
surveyTextInsightsDaily.  maxBuckets and maxTopPhrases stand for
ANALYTICS_MAX_BUCKETS and ANALYTICS_MAX_TOP_PHRASES of lib/constants.ts.
-/
def getSurveyFieldBreakdown (maxDays maxBuckets maxTopPhrases : ℕ) (db : Db)
    (surveyId : ℕ) (fromDate toDate : ℤ) (fieldId : String)
    (limitArg : Option ℕ) : Except ErrCode FieldBreakdownResult :=
  match parseAnalyticsDateRange maxDays fromDate toDate with
  | .error e => .error e
  | .ok range =>
      match AList.get (getSurveyFieldMetaMap db.surveyVersions surveyId) fieldId with
      | none => .error .FIELD_NOT_FOUND
      | some meta =>
          let bucketLimit := max 1 (min (limitArg.getD 20) maxBuckets)
          let fieldRows := db.surveyFieldAnalyticsDaily.filter
            (fun r => r.surveyId = surveyId ∧ r.fieldId = fieldId ∧
              range.fromDate ≤ r.dateKey ∧ r.dateKey ≤ range.toDate)
          let answeredByDate : AList ℤ ℕ := fieldRows.foldl
            (fun m row =>
              AList.set m row.dateKey ((AList.get m row.dateKey).getD 0 + row.answeredCount))
            []
          let totalAnswered := fieldRows.foldl (fun sum row => sum + row.answeredCount) (0 : ℕ)
          let bucketRows := db.surveyAnswerBucketsDaily.filter
            (fun r => r.surveyId = surveyId ∧ r.fieldId = fieldId ∧
              range.fromDate ≤ r.dateKey ∧ r.dateKey ≤ range.toDate)
          let bucketCounts : AList String BucketCell := bucketRows.foldl
            (fun m row =>
              let existing := (AList.get m row.bucketKey).getD
                { label := row.bucketLabel, count := 0 }
              AList.set m row.bucketKey
                { label := row.bucketLabel, count := existing.count + row.count })
            []
          let normalizedBuckets := (normalizeBucketRows meta.kind meta.optionOrder
              meta.optionLabels
              (bucketCounts.map (fun p =>
                { key := p.1, label := p.2.label, count := p.2.count : BareBucket }))).take
            bucketLimit
          let buckets := normalizedBuckets.map (fun bucket =>
            { key := bucket.key
              label := bucket.label
              count := bucket.count
              percent := toPercent (bucket.count : ℚ) (totalAnswered : ℚ) : PercentBucket })
          let dailyTrend := range.dayKeys.map
            (fun dateKey => (dateKey, (AList.get answeredByDate dateKey).getD 0))
          if ¬ (meta.kind = .short_text ∨ meta.kind = .long_text) then
            .ok { fieldId := fieldId
                  label := meta.label
                  kind := meta.kind
                  totalAnswered := totalAnswered
                  buckets := buckets
                  dailyTrend := dailyTrend
                  topPhrases := none
                  sampledText := none }
          else
            let textRows := db.surveyTextInsightsDaily.filter
              (fun r => r.surveyId = surveyId ∧ r.fieldId = fieldId ∧
                range.fromDate ≤ r.dateKey ∧ r.dateKey ≤ range.toDate)
            let phraseCounts : AList String ℕ := textRows.foldl
              (fun m row => row.topPhrases.foldl
                (fun m p => AList.set m p.1 ((AList.get m p.1).getD 0 + p.2)) m)
              []
            let snippetCounts : AList String ℕ := textRows.foldl
              (fun m row => row.sampledSnippets.foldl
                (fun m p => AList.set m p.1 ((AList.get m p.1).getD 0 + p.2)) m)
              []
            let topPhrases := ((phraseCounts : List (String × ℕ)).mergeSort
                countDescThenKey).take maxTopPhrases
            let sampledText := ((snippetCounts : List (String × ℕ)).mergeSort
                countDescThenKey).take 10
            .ok { fieldId := fieldId
                  label := meta.label
                  kind := meta.kind
                  totalAnswered := totalAnswered
                  buckets := buckets
                  dailyTrend := dailyTrend
                  topPhrases := some topPhrases
                  sampledText := some sampledText }

/-- One row of getSurveyDropoffByStep. -/
structure DropoffRow where
  fieldId : String
  label : String
  reachedCount : ℕ
  answeredCount : ℕ
  dropoffCount : ℕ
  dropoffRate : ℚ
  deriving DecidableEq, Repr

/-- getSurveyDropoffByStep: per-field sums of the
surveyFieldAnalyticsDaily slice, joined with metadata and ordered by
field order. -/
def getSurveyDropoffByStep (maxDays : ℕ) (db : Db) (surveyId : ℕ)
    (fromDate toDate : ℤ) : Except ErrCode (List DropoffRow) :=
  match parseAnalyticsDateRange maxDays fromDate toDate with
  | .error e => .error e
  | .ok range =>
      let fieldMeta := getSurveyFieldMetaMap db.surveyVersions surveyId
      let rows := db.surveyFieldAnalyticsDaily.filter
        (fun r => r.surveyId = surveyId ∧ range.fromDate ≤ r.dateKey ∧
          r.dateKey ≤ range.toDate)
      let aggregate : AList String (ℕ × ℕ × ℕ) := rows.foldl
        (fun m row =>
          let existing := (AList.get m row.fieldId).getD (0, 0, 0)
          AList.set m row.fieldId
            (existing.1 + row.reachedCount, existing.2.1 + row.answeredCount,
              existing.2.2 + row.dropoffCount))
        []
      let mapped := (aggregate.filterMap (fun p =>
          match AList.get fieldMeta p.1 with
          | none => none
          | some meta =>
              some (meta.order,
                { fieldId := p.1
                  label := meta.label
                  reachedCount := p.2.1
                  answeredCount := p.2.2.1
                  dropoffCount := p.2.2.2
                  dropoffRate := toPercent (p.2.2.2 : ℚ) (p.2.1 : ℚ) : DropoffRow }))).mergeSort
        (fun a b => decide (a.1 ≤ b.1))
      .ok (mapped.map (fun p => p.2))

/-- A typed CSV cell (string rendering abstracted). -/
inductive CsvCell where
  | strCell (s : String)
  | natCell (n : ℕ)
  | dateCell (d : ℤ)
  | ratCell (q : ℚ)
  | kindCell (k : FieldKind)
  deriving DecidableEq, Repr

/-- CSV report selector. -/
inductive CsvReport where
  | funnel
  | scoring
  | answer_breakdown
  deriving DecidableEq, Repr

/-- The result of getSurveyCsvExport (filename formatting abstracted to
its report selector). -/
structure CsvExport where
  report : CsvReport
  headers : List String
  rows : List (List CsvCell)
  deriving DecidableEq, Repr

/-- getSurveyCsvExport: the three report shapes, each failing with
ANALYTICS_EXPORT_TOO_LARGE when the row count exceeds maxCsvRows
(ANALYTICS_MAX_CSV_ROWS of lib/constants.ts). -/
def getSurveyCsvExport (maxDays maxCsvRows : ℕ) (db : Db) (surveyId : ℕ)
    (fromDate toDate : ℤ) (report : CsvReport) : Except ErrCode CsvExport :=
  match parseAnalyticsDateRange maxDays fromDate toDate with
  | .error e => .error e
  | .ok range =>
      match report with
      | .funnel =>
          let trendRows := loadDailyAnalyticsRows db.surveyAnalyticsDaily surveyId
            range.fromDate range.toDate
          let trendByDate := rowsByDate trendRows
          let rows := range.dayKeys.map (fun dateKey =>
            let row := AList.get trendByDate dateKey
            let started := (row.map (fun r => r.started)).getD 0
            let completed := (row.map (fun r => r.completed)).getD 0
            [CsvCell.dateCell dateKey, CsvCell.natCell started,
              CsvCell.natCell completed,
              CsvCell.natCell ((row.map (fun r => r.idle)).getD 0),
              CsvCell.natCell ((row.map (fun r => r.abandoned)).getD 0),
              CsvCell.natCell ((row.map (fun r => r.reactivated)).getD 0),
              CsvCell.ratCell (toPercent (completed : ℚ) (started : ℚ)),
              CsvCell.ratCell ((row.map (fun r => r.avgScorePercent)).getD 0)])
          if maxCsvRows < rows.length then .error .ANALYTICS_EXPORT_TOO_LARGE
          else
            .ok { report := .funnel
                  headers := ["dateKey", "started", "completed", "idle", "abandoned",
                    "reactivated", "conversionRate", "avgScorePercent"]
                  rows := rows }
      | .scoring =>
          let trendRows := loadDailyAnalyticsRows db.surveyAnalyticsDaily surveyId
            range.fromDate range.toDate
          let trendByDate := rowsByDate trendRows
          let rows := range.dayKeys.map (fun dateKey =>
            let row := AList.get trendByDate dateKey
            [CsvCell.dateCell dateKey,
              CsvCell.natCell ((row.map (fun r => r.totalGraded)).getD 0),
              CsvCell.ratCell ((row.map (fun r => r.avgScorePercent)).getD 0)])
          if maxCsvRows < rows.length then .error .ANALYTICS_EXPORT_TOO_LARGE
          else
            .ok { report := .scoring
                  headers := ["dateKey", "totalGraded", "avgScorePercent"]
                  rows := rows }
      | .answer_breakdown =>
          let breakdownRows := buildAnswerBreakdownFromMaterialized db.surveyVersions
            db.surveyFieldAnalyticsDaily db.surveyAnswerBucketsDaily surveyId
            range.fromDate range.toDate
          let rows := breakdownRows.flatMap (fun field =>
            field.buckets.map (fun bucket =>
              [CsvCell.strCell field.fieldId, CsvCell.strCell field.label,
                CsvCell.kindCell field.kind, CsvCell.natCell field.totalAnswered,
                CsvCell.strCell bucket.key, CsvCell.strCell bucket.label,
                CsvCell.natCell bucket.count, CsvCell.ratCell bucket.percent]))
          if maxCsvRows < rows.length then .error .ANALYTICS_EXPORT_TOO_LARGE
          else
            .ok { report := .answer_breakdown
                  headers := ["fieldId", "label", "kind", "totalAnswered", "bucketKey",
                    "bucketLabel", "bucketCount", "bucketPercent"]
                  rows := rows }

/-! # Theorems

Auxiliary lemmas first, then one named theorem per specification claim
(with witnesses and counterexamples where applicable). -/

/-! ## Association-list lemmas -/

theorem AList.get_set_self [DecidableEq κ] (m : AList κ ν) (k : κ) (v : ν) :
    AList.get (AList.set m k v) k = some v := by
  induction m with
  | nil => simp [AList.set, AList.get, List.find?]
  | cons p rest ih =>
      rcases p with ⟨a, b⟩
      by_cases h : a = k
      · subst h
        simp [AList.set, AList.get, List.find?]
      · simpa [AList.set, h, AList.get, List.find?] using ih

theorem AList.get_set_ne [DecidableEq κ] (m : AList κ ν) (k k' : κ) (v : ν)
    (h : k' ≠ k) : AList.get (AList.set m k v) k' = AList.get m k' := by
  have h2 : ¬ (k = k') := fun hh => h hh.symm
  induction m with
  | nil => simp [AList.set, AList.get, List.find?, h2]
  | cons p rest ih =>
      rcases p with ⟨a, b⟩
      by_cases hp : a = k
      · subst hp
        simp [AList.set, AList.get, List.find?, h2]
      · by_cases hk' : a = k'
        · simp [AList.set, hp, AList.get, List.find?, hk', h]
        · simpa [AList.set, hp, AList.get, List.find?, hk'] using ih

theorem AList.keys_set [DecidableEq κ] (m : AList κ ν) (k : κ) (v : ν) :
    AList.keys (AList.set m k v) =
      if k ∈ AList.keys m then AList.keys m else AList.keys m ++ [k] := by
  induction m with
  | nil => simp [AList.set, AList.keys]
  | cons p rest ih =>
      rcases p with ⟨a, b⟩
      by_cases h : a = k
      · subst h
        simp [AList.set, AList.keys]
      · have hka : (k = a) = False := eq_false (fun hh => h hh.symm)
        simp only [AList.set, h, if_false, AList.keys, List.map_cons, List.mem_cons, hka,
          false_or]
        simp only [AList.keys] at ih
        by_cases hk : k ∈ List.map (fun p => p.1) rest
        · simp only [hk, if_true] at ih ⊢
          simp [ih]
        · simp only [hk, if_false] at ih ⊢
          simp [ih]

theorem AList.keys_set_nodup [DecidableEq κ] (m : AList κ ν) (k : κ) (v : ν)
    (h : (AList.keys m).Nodup) : (AList.keys (AList.set m k v)).Nodup := by
  rw [AList.keys_set]
  by_cases hk : k ∈ AList.keys m
  · simpa [hk]
  · simp only [hk, if_false]
    rw [List.nodup_append]
    refine ⟨h, List.nodup_singleton _, ?_⟩
    intro a ha hk2
    simp only [List.mem_singleton] at hk2
    exact hk (hk2 ▸ ha)

theorem AList.forall_set [DecidableEq κ] {P : κ × ν → Prop} (m : AList κ ν)
    (k : κ) (v : ν) (h : ∀ p ∈ m, P p) (hkv : P (k, v)) :
    ∀ p ∈ AList.set m k v, P p := by
  induction m with
  | nil => simpa [AList.set]
  | cons q rest ih =>
      rcases q with ⟨a, b⟩
      by_cases hq : a = k
      · subst hq
        intro p hp
        rcases List.mem_cons.mp (by simpa [AList.set] using hp) with h1 | h2
        · exact h1 ▸ hkv
        · exact h p (List.mem_cons_of_mem _ h2)
      · intro p hp
        rcases List.mem_cons.mp (by simpa [AList.set, hq] using hp) with h1 | h2
        · exact h p (h1 ▸ List.mem_cons_self _ _)
        · exact ih (fun r hr => h r (List.mem_cons_of_mem _ hr)) p h2

theorem AList.get_mem [DecidableEq κ] {m : AList κ ν} {k : κ} {v : ν}
    (h : AList.get m k = some v) : (k, v) ∈ m := by
  unfold AList.get at h
  cases hf : List.find? (fun p => decide (p.1 = k)) m with
  | none => simp [hf] at h
  | some p =>
      have hm := List.mem_of_find?_eq_some hf
      have hp := List.find?_some hf
      have hk : p.1 = k := of_decide_eq_true hp
      simp only [hf, Option.map_some'] at h
      rcases p with ⟨a, b⟩
      simp only at hk
      have hb : b = v := by simpa using h
      subst hk
      subst hb
      exact hm

/-! ## Scoring lemmas and claim C3 -/

theorem gradeStep_le (answers : AnswerMap) (acc : ℕ × ℕ × List (String × Bool))
    (field : Field) (h : acc.2.1 ≤ acc.1) :
    (gradeStep answers acc field).2.1 ≤ (gradeStep answers acc field).1 := by
  cases hc : field.correctness with
  | none => simpa [gradeStep, hc] using h
  | some c =>
      simp only [gradeStep, hc]
      split <;> omega

theorem foldl_gradeStep_le (answers : AnswerMap) (fields : List Field) :
    ∀ acc : ℕ × ℕ × List (String × Bool), acc.2.1 ≤ acc.1 →
      (fields.foldl (gradeStep answers) acc).2.1 ≤
        (fields.foldl (gradeStep answers) acc).1 := by
  induction fields with
  | nil => intro acc h; simpa using h
  | cons f fs ih =>
      intro acc h
      exact ih _ (gradeStep_le answers acc f h)

theorem foldl_gradeStep_count (answers : AnswerMap) (fields : List Field) :
    ∀ acc : ℕ × ℕ × List (String × Bool),
      (fields.foldl (gradeStep answers) acc).1 =
        acc.1 + (fields.filter (fun f => f.correctness.isSome)).length := by
  induction fields with
  | nil => intro acc; simp
  | cons f fs ih =>
      intro acc
      cases hc : f.correctness with
      | none => simp [List.foldl_cons, gradeStep, hc, List.filter_cons, ih]
      | some c =>
          simp only [List.foldl_cons, gradeStep, hc, List.filter_cons]
          simp only [Option.isSome_some, if_true, List.length_cons, ih]
          omega

/-- C3: for every field list and answer map, gradeSubmission returns
correctCount + incorrectCount = gradableCount, gradableCount is exactly
the number of fields carrying a correctness rule, and
scorePercent = round(correctCount/gradableCount*10000)/100 when
gradableCount > 0 and 0 when gradableCount = 0. -/
theorem gradeSubmission_counts_and_score (fields : List Field)
    (answers : AnswerMap) :
    (gradeSubmission fields answers).correctCount +
        (gradeSubmission fields answers).incorrectCount =
      (gradeSubmission fields answers).gradableCount ∧
    (gradeSubmission fields answers).gradableCount =
      (fields.filter (fun f => f.correctness.isSome)).length ∧
    (gradeSubmission fields answers).scorePercent =
      (if (gradeSubmission fields answers).gradableCount = 0 then 0
       else (round (((gradeSubmission fields answers).correctCount : ℚ) /
          ((gradeSubmission fields answers).gradableCount : ℚ) * 10000) : ℚ) / 100) := by
  have hle := foldl_gradeStep_le answers fields (0, 0, []) (by simp)
  have hcount := foldl_gradeStep_count answers fields (0, 0, [])
  refine ⟨?_, ?_, ?_⟩
  · simp only [gradeSubmission]
    omega
  · simp only [gradeSubmission]
    simpa using hcount
  · simp only [gradeSubmission]

/-! ## Answer validation: claim C9 -/

/-- C9 counterexample: validateAnswerWithZod accepts Infinity for a
number field without a configured max bound (z.number() of zod v3 only
rejects NaN), so a non-finite value is accepted, contrary to the claim
that only finite numbers pass. -/
theorem validateAnswer_accepts_infinity :
    validateAnswerWithZod (fun _ _ => false)
      { id := "n", kind := .number, label := "N", required := true, order := 0 }
      (some (.num .posInf)) = none ∧
    JsNum.isFinite .posInf = false := by
  constructor
  · rfl
  · rfl

theorem validateNumeric_accept_iff (matchPattern : String → String → Bool)
    (field : Field)
    (hkind : field.kind = .number ∨ field.kind = .rating_1_5) (n : JsNum) :
    validateAnswerWithZod matchPattern field (some (.num n)) = none ↔
      (n.isNaN = false ∧
        (field.kind = .rating_1_5 →
          n.lt (.fin 1) = false ∧ (JsNum.fin 5).lt n = false) ∧
        (∀ m : ℚ, field.validation.bind (fun v => v.min) = some m →
          n.lt (.fin m) = false) ∧
        (∀ m : ℚ, field.validation.bind (fun v => v.max) = some m →
          (JsNum.fin m).lt n = false)) := by
  rcases hkind with h | h <;>
    cases hbmin : field.validation.bind (fun v => v.min) <;>
    cases hbmax : field.validation.bind (fun v => v.max) <;>
    by_cases hn : n.isNaN = true <;>
    simp [validateAnswerWithZod, h, zodNumberParse, hn, optTest, hbmin, hbmax] <;>
    (try split_ifs) <;>
    simp_all <;>
    (try (intros
          simp_all))

/-- C9 (amended): for a number or rating_1_5 field, a present value is
accepted exactly when it is a number other than NaN that passes the manual
rating range check (for rating_1_5, values below 1 or above 5 are
rejected; integrality is not required) and the configured min/max bound
comparisons; an accepted rating is finite and lies in [1,5]; a rating
field with no validation config accepts every finite value of [1,5],
non-integers such as 5/2 included; a number field accepts positive
Infinity whenever no max bound is configured and negative Infinity
whenever no min bound is configured; NaN is always rejected (z.number()
of zod v3 rejects NaN only; .finite() is not used). -/
theorem validateAnswer_numeric_amended (matchPattern : String → String → Bool)
    (field : Field)
    (hkind : field.kind = .number ∨ field.kind = .rating_1_5) :
    (∀ value : Option AnswerValue, isAnswerPresent value = true →
      (validateAnswerWithZod matchPattern field value = none ↔
        ∃ n : JsNum, value = some (.num n) ∧ n.isNaN = false ∧
          (field.kind = .rating_1_5 →
            n.lt (.fin 1) = false ∧ (JsNum.fin 5).lt n = false) ∧
          (∀ m : ℚ, field.validation.bind (fun v => v.min) = some m →
            n.lt (.fin m) = false) ∧
          (∀ m : ℚ, field.validation.bind (fun v => v.max) = some m →
            (JsNum.fin m).lt n = false))) ∧
    (field.kind = .rating_1_5 →
      ∀ n : JsNum,
        validateAnswerWithZod matchPattern field (some (.num n)) = none →
        ∃ q : ℚ, n = .fin q ∧ 1 ≤ q ∧ q ≤ 5) ∧
    (field.kind = .rating_1_5 → field.validation = none →
      ∀ q : ℚ,
        (validateAnswerWithZod matchPattern field (some (.num (.fin q))) = none ↔
          1 ≤ q ∧ q ≤ 5)) ∧
    (field.kind = .number →
      (field.validation.bind (fun v => v.max) = none →
        validateAnswerWithZod matchPattern field (some (.num .posInf)) = none) ∧
      (field.validation.bind (fun v => v.min) = none →
        validateAnswerWithZod matchPattern field (some (.num .negInf)) = none)) ∧
    validateAnswerWithZod matchPattern field (some (.num .nan)) =
      some .expectedNumber := by
  have hk : field.kind = .number ∨ field.kind = .rating_1_5 := hkind
  refine ⟨?_, ?_, ?_, ?_, ?_⟩
  · intro value hpresent
    constructor
    · intro hacc
      have hshape : ∃ n : JsNum, value = some (.num n) := by
        rcases value with _ | av
        · simp [isAnswerPresent] at hpresent
        · rcases av with s | n | b | xs | _
          · exfalso
            have hs : 0 < (jsTrim s).length := by
              simpa [isAnswerPresent] using hpresent
            rcases hk with h | h <;>
              simp [validateAnswerWithZod, h, Nat.pos_iff_ne_zero.mp hs,
                zodNumberParse] at hacc
          · exact ⟨n, rfl⟩
          · exfalso
            rcases hk with h | h <;>
              simp [validateAnswerWithZod, h, zodNumberParse] at hacc
          · exfalso
            have hs : 0 < xs.length := by
              simpa [isAnswerPresent] using hpresent
            rcases hk with h | h <;>
              simp [validateAnswerWithZod, h, Nat.pos_iff_ne_zero.mp hs,
                zodNumberParse] at hacc
          · simp [isAnswerPresent] at hpresent
      rcases hshape with ⟨n, rfl⟩
      exact ⟨n, rfl, (validateNumeric_accept_iff matchPattern field hk n).mp hacc⟩
    · rintro ⟨n, rfl, hprops⟩
      exact (validateNumeric_accept_iff matchPattern field hk n).mpr hprops
  · intro hr n hacc
    have hprops := (validateNumeric_accept_iff matchPattern field hk n).mp hacc
    rcases hprops with ⟨hn, hrat, -, -⟩
    rcases hrat hr with ⟨hr1, hr5⟩
    rcases n with _ | _ | _ | q
    · exact absurd hn (by simp [JsNum.isNaN])
    · exact absurd hr5 (by simp [JsNum.lt])
    · exact absurd hr1 (by simp [JsNum.lt])
    · refine ⟨q, rfl, ?_, ?_⟩
      · have : ¬ (q < 1) := by simpa [JsNum.lt] using hr1
        linarith
      · have : ¬ (5 < q) := by simpa [JsNum.lt] using hr5
        linarith
  · intro hr hv q
    rw [validateNumeric_accept_iff matchPattern field hk (.fin q)]
    simp [hr, hv, JsNum.isNaN, JsNum.lt, not_lt]
  · intro hnum
    constructor
    · intro hbmax
      refine (validateNumeric_accept_iff matchPattern field hk .posInf).mpr
        ⟨rfl, ?_, ?_, ?_⟩
      · intro hr
        exact FieldKind.noConfusion (hnum.symm.trans hr)
      · intro m hm
        rfl
      · intro m hm
        rw [hbmax] at hm
        exact Option.noConfusion hm
    · intro hbmin
      refine (validateNumeric_accept_iff matchPattern field hk .negInf).mpr
        ⟨rfl, ?_, ?_, ?_⟩
      · intro hr
        exact FieldKind.noConfusion (hnum.symm.trans hr)
      · intro m hm
        rw [hbmin] at hm
        exact Option.noConfusion hm
      · intro m hm
        rfl
  · rcases hk with h | h <;>
      simp [validateAnswerWithZod, h, zodNumberParse, JsNum.isNaN]

/-- Witness for the amended C9 theorem: the bare rating field accepts the
non-integer rating 5/2, via the acceptance characterization applied at
that field with every hypothesis discharged. -/
theorem validateAnswer_numeric_amended_witness :
    ((Field.mk "r" .rating_1_5 "R" true 0 none none none).kind = .number ∨
      (Field.mk "r" .rating_1_5 "R" true 0 none none none).kind = .rating_1_5) ∧
    (1 ≤ (5 / 2 : ℚ) ∧ (5 / 2 : ℚ) ≤ 5) ∧
    validateAnswerWithZod (fun _ _ => false)
      (Field.mk "r" .rating_1_5 "R" true 0 none none none)
      (some (.num (.fin (5 / 2)))) = none :=
  ⟨Or.inr rfl, ⟨by norm_num, by norm_num⟩,
    ((validateAnswer_numeric_amended (fun _ _ => false)
        (Field.mk "r" .rating_1_5 "R" true 0 none none none)
        (Or.inr rfl)).2.2.1 rfl rfl (5 / 2)).mpr ⟨by norm_num, by norm_num⟩⟩

/-! ## Reach semantics of the rebuild: claim C2 -/

theorem foldl_bumpBucket_proj (entries : List (String × String))
    (agg : FieldAggregate) :
    (entries.foldl bumpBucket agg).reachedCount = agg.reachedCount ∧
    (entries.foldl bumpBucket agg).fieldId = agg.fieldId ∧
    (entries.foldl bumpBucket agg).answeredCount = agg.answeredCount ∧
    (entries.foldl bumpBucket agg).kind = agg.kind ∧
    (entries.foldl bumpBucket agg).order = agg.order ∧
    (entries.foldl bumpBucket agg).textAnswers = agg.textAnswers ∧
    (entries.foldl bumpBucket agg).optionOrder = agg.optionOrder ∧
    (entries.foldl bumpBucket agg).optionLabels = agg.optionLabels := by
  induction entries generalizing agg with
  | nil => simp
  | cons e es ih => simpa [bumpBucket] using ih (bumpBucket agg e)

theorem foldl_bumpBucket_reachedCount (entries : List (String × String))
    (agg : FieldAggregate) :
    (entries.foldl bumpBucket agg).reachedCount = agg.reachedCount :=
  (foldl_bumpBucket_proj entries agg).1

theorem foldl_bumpBucket_fieldId (entries : List (String × String))
    (agg : FieldAggregate) :
    (entries.foldl bumpBucket agg).fieldId = agg.fieldId :=
  (foldl_bumpBucket_proj entries agg).2.1

theorem processField_reachedCount (answers : AnswerMap) (m : ℕ)
    (aggs : AList String FieldAggregate) (field : Field) :
    (AList.get (processField answers m aggs field) field.id).map
        (fun a => a.reachedCount) =
      some ((((AList.get aggs field.id).map (fun a => a.reachedCount)).getD 0) +
        (if field.order ≤ m then 1 else 0)) := by
  cases hg : AList.get aggs field.id with
  | none =>
      simp only [processField, getOrCreateFieldAggregate, hg]
      rw [AList.get_set_self]
      simp only [Option.map_some', hg, Option.map_none', Option.getD_none]
      congr 1
      repeat' split
      all_goals simp [foldl_bumpBucket_reachedCount]
  | some agg0 =>
      simp only [processField, getOrCreateFieldAggregate, hg]
      rw [AList.get_set_self]
      simp only [Option.map_some', Option.getD_some]
      congr 1
      repeat' split
      all_goals simp [foldl_bumpBucket_reachedCount]

theorem le_maxReachedOrder_iff (fields : List Field) (answers : AnswerMap)
    (x : ℕ) :
    (x ≤ maxReachedOrder fields answers) ↔
      (x = 0 ∨ ∃ g ∈ fields, isAnswerPresent (answers.get g.id) = true ∧
        x ≤ g.order) := by
  have main : ∀ (fs : List Field) (init : ℕ),
      (x ≤ fs.foldl
          (fun m f => if isAnswerPresent (answers.get f.id) then max m f.order else m)
          init) ↔
        (x ≤ init ∨ ∃ g ∈ fs, isAnswerPresent (answers.get g.id) = true ∧
          x ≤ g.order) := by
    intro fs
    induction fs with
    | nil => intro init; simp
    | cons f fs ih =>
        intro init
        by_cases hp : isAnswerPresent (answers.get f.id)
        · simp only [List.foldl_cons, hp, if_true]
          rw [ih (max init f.order)]
          simp only [List.mem_cons, le_max_iff, hp]
          constructor
          · rintro (⟨h | h⟩ | ⟨g, hg, hpg, hx⟩)
            · exact Or.inl h
            · exact Or.inr ⟨f, Or.inl rfl, hp, h⟩
            · exact Or.inr ⟨g, Or.inr hg, hpg, hx⟩
          · rintro (h | ⟨g, hg | hg, hpg, hx⟩)
            · exact Or.inl (Or.inl h)
            · exact Or.inl (Or.inr (hg ▸ hx))
            · exact Or.inr ⟨g, hg, hpg, hx⟩
        · simp only [List.foldl_cons, hp, Bool.false_eq_true, if_false]
          rw [ih init]
          simp only [List.mem_cons]
          constructor
          · rintro (h | ⟨g, hg, hpg, hx⟩)
            · exact Or.inl h
            · exact Or.inr ⟨g, Or.inr hg, hpg, hx⟩
          · rintro (h | ⟨g, hg | hg, hpg, hx⟩)
            · exact Or.inl h
            · exact absurd (hg ▸ hpg) (by simpa using hp)
            · exact Or.inr ⟨g, hg, hpg, hx⟩
  have h0 := main fields 0
  rw [show maxReachedOrder fields answers = fields.foldl
      (fun m f => if isAnswerPresent (answers.get f.id) then max m f.order else m) 0
    from rfl]
  rw [h0]
  simp [Nat.le_zero]

/-- C2 (amended): the rebuild counts a field of a response as reached
exactly when field.order <= maxReachedOrder (processField bumps its
reachedCount by one under exactly that condition), and that condition
holds iff the field has order 0 or some field AT OR AFTER its order
position has a present answer in the response — not, as the claim words
it, a field at or before the position. -/
theorem rebuild_reached_characterization :
    (∀ (answers : AnswerMap) (m : ℕ) (aggs : AList String FieldAggregate)
        (field : Field),
      (AList.get (processField answers m aggs field) field.id).map
          (fun a => a.reachedCount) =
        some ((((AList.get aggs field.id).map (fun a => a.reachedCount)).getD 0) +
          (if field.order ≤ m then 1 else 0))) ∧
    (∀ (fields : List Field) (answers : AnswerMap) (field : Field),
      fieldReachedInResponse fields answers field = true ↔
        (field.order = 0 ∨ ∃ g ∈ fields,
          isAnswerPresent (answers.get g.id) = true ∧ field.order ≤ g.order)) := by
  refine ⟨processField_reachedCount, ?_⟩
  intro fields answers field
  rw [show fieldReachedInResponse fields answers field =
      decide (field.order ≤ maxReachedOrder fields answers) from rfl]
  rw [decide_eq_true_iff]
  exact le_maxReachedOrder_iff fields answers field.order

/-- C2 counterexample: a response answering only the later field f1
(order 1) makes the rebuild count f0 (order 0) as reached, although no
field at or before order position 0 has a present answer, refuting the
claim's as-worded reach predicate. -/
theorem reached_differs_from_spec_worded :
    fieldReachedInResponse
        [Field.mk "f0" .short_text "A" false 0 none none none,
         Field.mk "f1" .short_text "B" false 1 none none none]
        [("f1", .str "x")]
        (Field.mk "f0" .short_text "A" false 0 none none none) = true ∧
    ¬ specWordedReached
        [Field.mk "f0" .short_text "A" false 0 none none none,
         Field.mk "f1" .short_text "B" false 1 none none none]
        [("f1", .str "x")]
        (Field.mk "f0" .short_text "A" false 0 none none none) := by
  constructor
  · decide
  · rw [specWordedReached]
    decide

/-! ## Invite consumption: claim C4 -/

theorem submitSessionInvite_max (now : ℤ) (valid : Bool) (inv : Invite) :
    (submitSessionInvite now valid inv).1.maxCompletions = inv.maxCompletions := by
  unfold submitSessionInvite
  split_ifs <;> rfl

theorem submitSessionInvite_bound (now : ℤ) (valid : Bool) (inv : Invite)
    (h : inv.completionCount ≤ inv.maxCompletions) :
    (submitSessionInvite now valid inv).1.completionCount ≤
      (submitSessionInvite now valid inv).1.maxCompletions := by
  unfold submitSessionInvite
  split_ifs with h1 h2 h3 h4 <;> simp <;> omega

/-- C4: completionCount stays at or below maxCompletions after every
submitSession call and after any sequence of calls; a successful submit
increments the count by exactly one and flips the status to exhausted
exactly when the new count reaches the cap; a failing submit never
changes the count. -/
theorem invite_cap_invariant :
    (∀ (now : ℤ) (valid : Bool) (inv : Invite),
      inv.completionCount ≤ inv.maxCompletions →
      (submitSessionInvite now valid inv).1.completionCount ≤
        (submitSessionInvite now valid inv).1.maxCompletions) ∧
    (∀ (now : ℤ) (valid : Bool) (inv : Invite),
      (submitSessionInvite now valid inv).2 = none →
      (submitSessionInvite now valid inv).1.completionCount =
          inv.completionCount + 1 ∧
        (submitSessionInvite now valid inv).1.completionCount ≤
          inv.maxCompletions ∧
        ((submitSessionInvite now valid inv).1.status = .exhausted ↔
          (submitSessionInvite now valid inv).1.completionCount =
            inv.maxCompletions)) ∧
    (∀ (now : ℤ) (valid : Bool) (inv : Invite) (e : ErrCode),
      (submitSessionInvite now valid inv).2 = some e →
      (submitSessionInvite now valid inv).1.completionCount =
        inv.completionCount) ∧
    (∀ (ops : List (ℤ × Bool)) (inv : Invite),
      inv.completionCount ≤ inv.maxCompletions →
      (runSubmitOps ops inv).completionCount ≤
        (runSubmitOps ops inv).maxCompletions) := by
  refine ⟨submitSessionInvite_bound, ?_, ?_, ?_⟩
  · intro now valid inv hnone
    unfold submitSessionInvite at hnone ⊢
    split_ifs at hnone ⊢ with h1 h2 h3 h4
    all_goals simp_all
    all_goals omega
  · intro now valid inv e hsome
    unfold submitSessionInvite at hsome ⊢
    split_ifs at hsome ⊢ <;> simp_all
  · intro ops
    induction ops with
    | nil => intro inv h; simpa [runSubmitOps] using h
    | cons op ops ih =>
        intro inv h
        have hstep := submitSessionInvite_bound op.1 op.2 inv h
        have : runSubmitOps (op :: ops) inv =
            runSubmitOps ops (submitSessionInvite op.1 op.2 inv).1 := rfl
        rw [this]
        exact ih _ hstep

/-- Witness for C4 at a concrete invite: one successful submit on a
fresh one-completion invite reaches the cap and flips it to exhausted. -/
theorem invite_cap_invariant_witness :
    (Invite.mk .active 0 1 none).completionCount ≤
        (Invite.mk .active 0 1 none).maxCompletions ∧
    (submitSessionInvite 5 true (Invite.mk .active 0 1 none)).1.completionCount ≤
      (submitSessionInvite 5 true (Invite.mk .active 0 1 none)).1.maxCompletions :=
  ⟨by decide,
    invite_cap_invariant.1 5 true (Invite.mk .active 0 1 none) (by decide)⟩

/-! ## Outbox dispatcher: claim C8 -/

/-- C8: recording a failure on a pending row (reachable pending rows have
attemptCount <= 7: enqueue starts at 0 and a failure keeps the row
pending only while the new count is below 8) increments attemptCount by
one, schedules the retry at now + min(2^attemptCount seconds, 30 min)
with the new count, stays pending exactly while the new count is below 8
and flips to failed exactly at 8; successes become sent; failed rows are
never listed as due again. -/
theorem outbox_failure_backoff :
    (∀ (now : ℤ) (msg : Option String) (row : OutboxRow),
      row.status = .pending → row.attemptCount ≤ 7 →
      (recordOutboxDispatch now false msg row).attemptCount =
          row.attemptCount + 1 ∧
        (recordOutboxDispatch now false msg row).nextAttemptAt =
          now + min ((2 : ℤ) ^ (recordOutboxDispatch now false msg row).attemptCount
            * 1000) (30 * 60 * 1000) ∧
        ((recordOutboxDispatch now false msg row).status = .pending ↔
          (recordOutboxDispatch now false msg row).attemptCount < 8) ∧
        ((recordOutboxDispatch now false msg row).status = .failed ↔
          8 ≤ (recordOutboxDispatch now false msg row).attemptCount) ∧
        ((recordOutboxDispatch now false msg row).status = .pending →
          (recordOutboxDispatch now false msg row).attemptCount ≤ 7)) ∧
    (∀ (now : ℤ) (eventName : String),
      (enqueueAnalyticsEvent now eventName).status = .pending ∧
        (enqueueAnalyticsEvent now eventName).attemptCount ≤ 7) ∧
    (∀ (now : ℤ) (msg : Option String) (row : OutboxRow),
      (recordOutboxDispatch now true msg row).status = .sent) ∧
    (∀ (now : ℤ) (limitArg : Option ℕ) (batchCap : ℕ) (rows : List OutboxRow)
        (r : OutboxRow),
      r ∈ listDueOutboxEvents now limitArg batchCap rows → r.status = .pending) := by
  refine ⟨?_, ?_, ?_, ?_⟩
  · intro now msg row hp ha
    have hmin : min (row.attemptCount + 1) 10 = row.attemptCount + 1 := by omega
    unfold recordOutboxDispatch
    simp only [Bool.false_eq_true, if_false, hmin]
    refine ⟨trivial, trivial, ?_, ?_, ?_⟩
    · split <;> simp <;> omega
    · split <;> simp <;> omega
    · split <;> simp <;> omega
  · intro now eventName
    exact ⟨rfl, by simp [enqueueAnalyticsEvent]⟩
  · intro now msg row
    rfl
  · intro now limitArg batchCap rows r hr
    unfold listDueOutboxEvents at hr
    have hr2 := List.take_subset _ _ hr
    exact (of_decide_eq_true (List.mem_filter.mp hr2).2).1

/-- Witness for C8 at a concrete pending row on its seventh retry. -/
theorem outbox_failure_backoff_witness :
    ((OutboxRow.mk "ev" .pending 7 0 0 none none).status = .pending ∧
      (OutboxRow.mk "ev" .pending 7 0 0 none none).attemptCount ≤ 7) ∧
    ((recordOutboxDispatch 100 false (some "boom")
          (OutboxRow.mk "ev" .pending 7 0 0 none none)).attemptCount =
        (OutboxRow.mk "ev" .pending 7 0 0 none none).attemptCount + 1 ∧
      (recordOutboxDispatch 100 false (some "boom")
          (OutboxRow.mk "ev" .pending 7 0 0 none none)).nextAttemptAt =
        100 + min ((2 : ℤ) ^ (recordOutboxDispatch 100 false (some "boom")
            (OutboxRow.mk "ev" .pending 7 0 0 none none)).attemptCount * 1000)
          (30 * 60 * 1000) ∧
      ((recordOutboxDispatch 100 false (some "boom")
            (OutboxRow.mk "ev" .pending 7 0 0 none none)).status = .pending ↔
        (recordOutboxDispatch 100 false (some "boom")
            (OutboxRow.mk "ev" .pending 7 0 0 none none)).attemptCount < 8) ∧
      ((recordOutboxDispatch 100 false (some "boom")
            (OutboxRow.mk "ev" .pending 7 0 0 none none)).status = .failed ↔
        8 ≤ (recordOutboxDispatch 100 false (some "boom")
            (OutboxRow.mk "ev" .pending 7 0 0 none none)).attemptCount) ∧
      ((recordOutboxDispatch 100 false (some "boom")
            (OutboxRow.mk "ev" .pending 7 0 0 none none)).status = .pending →
        (recordOutboxDispatch 100 false (some "boom")
            (OutboxRow.mk "ev" .pending 7 0 0 none none)).attemptCount ≤ 7)) :=
  ⟨⟨rfl, by decide⟩,
    outbox_failure_backoff.1 100 (some "boom")
      (OutboxRow.mk "ev" .pending 7 0 0 none none) rfl (by decide)⟩

/-! ## Session lifecycle: claim C6 -/

theorem transitionSessionFn_no_backward (t : SessionStatus)
    (ht : t = .idle ∨ t = .abandoned) (at_ : ℤ) (s : Session)
    (h : (transitionSessionFn t at_ s).1.status = .in_progress) :
    s.status = .in_progress := by
  by_cases he : s.status = t
  · rw [transitionSessionFn, if_pos he] at h
    simpa using h
  · rw [transitionSessionFn, if_neg he] at h
    have h2 : t = SessionStatus.in_progress := h
    exfalso
    rcases ht with ht | ht <;> rw [ht] at h2 <;> exact SessionStatus.noConfusion h2

/-- C6: the idle and abandon sweep batches never move a session to
in_progress (a session in_progress after a sweep was already
in_progress); among the system's session operations, only
startOrResumeSession and saveAnswer take an idle or abandoned session
back to in_progress (the uncalled internal transitionState hook aside);
and a transition attempt whose target equals the current status is a
no-op returning false, not an error. -/
theorem session_sweeps_monotone :
    (∀ (now idleThresholdMs : ℤ) (limitArg : Option ℕ)
        (table : List (ℕ × Session)) (i : ℕ) (p q : ℕ × Session),
      table[i]? = some p →
      (markIdleBatch now idleThresholdMs limitArg table)[i]? = some q →
      q.2.status = .in_progress → p.2.status = .in_progress) ∧
    (∀ (now abandonedThresholdMs : ℤ) (limitArg : Option ℕ)
        (table : List (ℕ × Session)) (i : ℕ) (p q : ℕ × Session),
      table[i]? = some p →
      (markAbandonedBatch now abandonedThresholdMs limitArg table)[i]? = some q →
      q.2.status = .in_progress → p.2.status = .in_progress) ∧
    (∀ (op : SessionOp) (s : Session),
      (s.status = .idle ∨ s.status = .abandoned) →
      (sessionStep op s).status = .in_progress →
      (∃ now, op = .startOrResume now) ∨
        (∃ now fieldId value valid, op = .saveAnswer now fieldId value valid)) ∧
    (∀ (t : SessionStatus) (at_ : ℤ) (s : Session),
      s.status = t → transitionSessionFn t at_ s = (s, false)) := by
  refine ⟨?_, ?_, ?_, ?_⟩
  · intro now th lim table i p q hp hq hst
    unfold markIdleBatch at hq
    simp only [List.getElem?_map, hp, Option.map_some'] at hq
    have hq2 := Option.some.inj hq
    subst hq2
    split_ifs at hst <;>
      first
        | exact transitionSessionFn_no_backward .idle (Or.inl rfl) now p.2 hst
        | exact hst
  · intro now th lim table i p q hp hq hst
    unfold markAbandonedBatch at hq
    simp only [List.getElem?_map, hp, Option.map_some'] at hq
    have hq2 := Option.some.inj hq
    subst hq2
    split_ifs at hst <;>
      first
        | exact transitionSessionFn_no_backward .abandoned (Or.inr rfl) now p.2 hst
        | exact hst
  · intro op s hold hnew
    cases op with
    | startOrResume now => exact Or.inl ⟨now, rfl⟩
    | saveAnswer now fieldId value valid => exact Or.inr ⟨now, fieldId, value, valid, rfl⟩
    | submit now ok =>
        exfalso
        simp only [sessionStep] at hnew
        split_ifs at hnew with hc
        all_goals
          first
            | (rcases hold with h | h <;> rw [h] at hnew <;> simp at hnew)
            | simp at hnew
    | idleSweep now selected =>
        exfalso
        rcases hold with h | h <;>
          [skip; skip] <;>
          · simp only [sessionStep] at hnew
            split_ifs at hnew with hc
            · have := transitionSessionFn_no_backward .idle (Or.inl rfl) now s hnew
              rw [h] at this
              exact SessionStatus.noConfusion this
            · rw [h] at hnew
              exact SessionStatus.noConfusion hnew
    | abandonSweep now selected =>
        exfalso
        rcases hold with h | h <;>
          [skip; skip] <;>
          · simp only [sessionStep] at hnew
            split_ifs at hnew with hc
            · have := transitionSessionFn_no_backward .abandoned (Or.inr rfl) now s hnew
              rw [h] at this
              exact SessionStatus.noConfusion this
            · rw [h] at hnew
              exact SessionStatus.noConfusion hnew
  · intro t at_ s h
    unfold transitionSessionFn
    simp [h]

/-- Witness for C6: the no-op clause at a concrete already-idle session,
and the sweep clause at a one-row table. -/
theorem session_sweeps_monotone_witness :
    ((Session.mk .idle 0 0 none []).status = .idle ∧
      transitionSessionFn .idle 9 (Session.mk .idle 0 0 none []) =
        (Session.mk .idle 0 0 none [], false)) ∧
    (([(0, Session.mk .in_progress 0 0 none [])] :
        List (ℕ × Session))[0]? = some (0, Session.mk .in_progress 0 0 none []) ∧
      (0, Session.mk .in_progress 0 0 none []).2.status = .in_progress) :=
  ⟨⟨rfl, session_sweeps_monotone.2.2.2 .idle 9 (Session.mk .idle 0 0 none []) rfl⟩,
    rfl, rfl⟩

/-! ## Analytics window bound: claim C7 -/

theorem buildDateKeys_length (fromDate toDate : ℤ) :
    (buildDateKeys fromDate toDate).length = spanDays fromDate toDate := by
  unfold buildDateKeys spanDays
  split
  · rw [List.length_map, List.length_range]
  · rfl

theorem parse_window_too_large (maxDays : ℕ) (fromDate toDate : ℤ)
    (h : maxDays < spanDays fromDate toDate) :
    parseAnalyticsDateRange maxDays fromDate toDate =
      .error .ANALYTICS_WINDOW_TOO_LARGE := by
  unfold parseAnalyticsDateRange
  dsimp only
  have hl := buildDateKeys_length fromDate toDate
  split_ifs with h1 h2
  · omega
  · rfl
  · omega

theorem parse_within_bound (maxDays : ℕ) (fromDate toDate : ℤ)
    (h : spanDays fromDate toDate ≤ maxDays) :
    parseAnalyticsDateRange maxDays fromDate toDate = .error .INVALID_DATE_RANGE ∨
      ∃ r, parseAnalyticsDateRange maxDays fromDate toDate = .ok r := by
  unfold parseAnalyticsDateRange
  dsimp only
  have hl := buildDateKeys_length fromDate toDate
  split_ifs with h1 h2
  · exact Or.inl rfl
  · omega
  · exact Or.inr ⟨_, rfl⟩

/-- C7: every analytics read query rejects a range spanning more UTC
days than the window bound with ANALYTICS_WINDOW_TOO_LARGE (the Except
result is that error, so no data is returned), and a range at or under
the bound is never rejected with that error. -/
theorem analytics_window_bound (maxDays maxBuckets maxTopPhrases maxCsvRows : ℕ)
    (db : Db) (surveyId : ℕ) (fromDate toDate : ℤ) (fieldId : String)
    (limitArg : Option ℕ) (report : CsvReport) :
    (maxDays < spanDays fromDate toDate →
      getSurveyFunnel maxDays db surveyId fromDate toDate =
          .error .ANALYTICS_WINDOW_TOO_LARGE ∧
        getSurveyScoringSummary maxDays db surveyId fromDate toDate =
          .error .ANALYTICS_WINDOW_TOO_LARGE ∧
        getSurveyTrendSeries maxDays db surveyId fromDate toDate =
          .error .ANALYTICS_WINDOW_TOO_LARGE ∧
        getSurveyAnswerBreakdown maxDays db surveyId fromDate toDate =
          .error .ANALYTICS_WINDOW_TOO_LARGE ∧
        getSurveyFieldBreakdown maxDays maxBuckets maxTopPhrases db surveyId
            fromDate toDate fieldId limitArg =
          .error .ANALYTICS_WINDOW_TOO_LARGE ∧
        getSurveyDropoffByStep maxDays db surveyId fromDate toDate =
          .error .ANALYTICS_WINDOW_TOO_LARGE ∧
        getSurveyCsvExport maxDays maxCsvRows db surveyId fromDate toDate report =
          .error .ANALYTICS_WINDOW_TOO_LARGE) ∧
    (spanDays fromDate toDate ≤ maxDays →
      getSurveyFunnel maxDays db surveyId fromDate toDate ≠
          .error .ANALYTICS_WINDOW_TOO_LARGE ∧
        getSurveyScoringSummary maxDays db surveyId fromDate toDate ≠
          .error .ANALYTICS_WINDOW_TOO_LARGE ∧
        getSurveyTrendSeries maxDays db surveyId fromDate toDate ≠
          .error .ANALYTICS_WINDOW_TOO_LARGE ∧
        getSurveyAnswerBreakdown maxDays db surveyId fromDate toDate ≠
          .error .ANALYTICS_WINDOW_TOO_LARGE ∧
        getSurveyFieldBreakdown maxDays maxBuckets maxTopPhrases db surveyId
            fromDate toDate fieldId limitArg ≠
          .error .ANALYTICS_WINDOW_TOO_LARGE ∧
        getSurveyDropoffByStep maxDays db surveyId fromDate toDate ≠
          .error .ANALYTICS_WINDOW_TOO_LARGE ∧
        getSurveyCsvExport maxDays maxCsvRows db surveyId fromDate toDate report ≠
          .error .ANALYTICS_WINDOW_TOO_LARGE) := by
  constructor
  · intro h
    have hp := parse_window_too_large maxDays fromDate toDate h
    refine ⟨?_, ?_, ?_, ?_, ?_, ?_, ?_⟩ <;>
      simp only [getSurveyFunnel, getSurveyScoringSummary, getSurveyTrendSeries,
        getSurveyAnswerBreakdown, getSurveyFieldBreakdown, getSurveyDropoffByStep,
        getSurveyCsvExport, hp]
  · intro h
    rcases parse_within_bound maxDays fromDate toDate h with hp | ⟨r, hp⟩ <;>
      refine ⟨?_, ?_, ?_, ?_, ?_, ?_, ?_⟩ <;>
      simp only [getSurveyFunnel, getSurveyScoringSummary, getSurveyTrendSeries,
        getSurveyAnswerBreakdown, getSurveyFieldBreakdown, getSurveyDropoffByStep,
        getSurveyCsvExport, hp] <;>
      intro hcontra <;>
      (try split at hcontra) <;>
      (try split at hcontra) <;>
      simp_all

/-- Witness for C7 on both sides of the bound: a 6-day request against a
1-day bound, and a 1-day request against a 1-day bound. -/
theorem analytics_window_bound_witness :
    ((1 : ℕ) < spanDays 0 5 ∧
      getSurveyFunnel 1 (Db.mk [] [] [] [] [] []) 0 0 5 =
        .error .ANALYTICS_WINDOW_TOO_LARGE) ∧
    (spanDays 0 0 ≤ (1 : ℕ) ∧
      getSurveyFunnel 1 (Db.mk [] [] [] [] [] []) 0 0 0 ≠
        .error .ANALYTICS_WINDOW_TOO_LARGE) :=
  ⟨⟨by decide,
      ((analytics_window_bound 1 1 1 1 (Db.mk [] [] [] [] [] []) 0 0 5 "f" none
          .funnel).1 (by decide)).1⟩,
    ⟨by decide,
      ((analytics_window_bound 1 1 1 1 (Db.mk [] [] [] [] [] []) 0 0 0 "f" none
          .funnel).2 (by decide)).1⟩⟩

/-! ## Rebuild counter flooring: claim C10 -/

theorem round_mono_rat {a b : ℚ} (h : a ≤ b) : round a ≤ round b := by
  rw [round_eq, round_eq]
  exact Int.floor_le_floor (by linarith)

theorem toPercent_le_100 {v t : ℚ} (h0 : 0 ≤ v) (h : v ≤ t) :
    toPercent v t ≤ 100 := by
  unfold toPercent roundToTwo
  split_ifs with ht
  · norm_num
  · push_neg at ht
    have hdiv : v / t ≤ 1 := by
      rw [div_le_one ht]
      exact h
    have hx : v / t * 100 * 100 ≤ 10000 := by nlinarith
    have hr : round (v / t * 100 * 100) ≤ round (10000 : ℚ) := round_mono_rat hx
    have h10 : round (10000 : ℚ) = 10000 := by norm_num
    rw [h10] at hr
    have hcast : ((round (v / t * 100 * 100) : ℤ) : ℚ) ≤ (10000 : ℚ) := by
      exact_mod_cast hr
    linarith

theorem upsertRow_eq (existing : List α) (row : α) :
    upsertRow existing row = [row] := by
  cases existing <;> rfl

/-- C10: after a rebuild for (surveyId, dateKey), the single
surveyAnalyticsDaily row of the slice has completed at least the number
of responses submitted that UTC day, started at least completed, and a
derived conversion rate of at most 100 percent. -/
theorem rebuild_counters_floored (maxPhrases maxSnippets : ℕ)
    (sanitize : String → String) (versions : List VersionDoc)
    (allResponses : List ResponseDoc) (metrics : Option MetricsDailyRow)
    (surveyId : ℕ) (dateKey : ℤ) (now : ℤ) (includeTextInsights : Bool)
    (st : RollupState) :
    ∃ row : AnalyticsDailyRow,
      (rebuildDailyMaterializedAnalytics maxPhrases maxSnippets sanitize versions
          allResponses metrics surveyId dateKey now includeTextInsights
          st).analyticsRows = [row] ∧
      (getResponsesForSurveyDate allResponses surveyId dateKey).length ≤
        row.completed ∧
      row.completed ≤ row.started ∧
      toPercent (row.completed : ℚ) (row.started : ℚ) ≤ 100 := by
  refine ⟨computeAnalyticsRow surveyId dateKey now metrics
    (getResponsesForSurveyDate allResponses surveyId dateKey).length
    (rebuildAccum versions allResponses surveyId dateKey).totalGraded
    (rebuildAccum versions allResponses surveyId dateKey).sumScorePercent,
    ?_, ?_, ?_, ?_⟩
  · unfold rebuildDailyMaterializedAnalytics
    exact upsertRow_eq _ _
  · unfold computeAnalyticsRow
    exact le_max_right _ _
  · unfold computeAnalyticsRow
    exact le_max_right _ _
  · apply toPercent_le_100 (by positivity)
    have : (computeAnalyticsRow surveyId dateKey now metrics
        (getResponsesForSurveyDate allResponses surveyId dateKey).length
        (rebuildAccum versions allResponses surveyId dateKey).totalGraded
        (rebuildAccum versions allResponses surveyId dateKey).sumScorePercent).completed ≤
      (computeAnalyticsRow surveyId dateKey now metrics
        (getResponsesForSurveyDate allResponses surveyId dateKey).length
        (rebuildAccum versions allResponses surveyId dateKey).totalGraded
        (rebuildAccum versions allResponses surveyId dateKey).sumScorePercent).started := by
      unfold computeAnalyticsRow
      exact le_max_right _ _
    exact_mod_cast this

/-! ## Analytics reads and raw responses: claim C5 -/

/-- C5 counterexample: two database states with identical rollup tables
and version metadata but different raw surveyResponses rows give
different getSurveyScoringSummary results (the source computes
totalCorrect/totalIncorrect from the raw grading payloads), refuting the
claim that every listed query reads only the rollups. -/
theorem scoring_summary_reads_raw_responses :
    (Db.mk [] [] [] [] []
        [ResponseDoc.mk 0 0 0 []
          (some (SubmissionGrading.mk 3 3 0 100 []))]).surveyAnalyticsDaily =
      (Db.mk [] [] [] [] [] []).surveyAnalyticsDaily ∧
    (Db.mk [] [] [] [] []
        [ResponseDoc.mk 0 0 0 []
          (some (SubmissionGrading.mk 3 3 0 100 []))]).surveyFieldAnalyticsDaily =
      (Db.mk [] [] [] [] [] []).surveyFieldAnalyticsDaily ∧
    (Db.mk [] [] [] [] []
        [ResponseDoc.mk 0 0 0 []
          (some (SubmissionGrading.mk 3 3 0 100 []))]).surveyAnswerBucketsDaily =
      (Db.mk [] [] [] [] [] []).surveyAnswerBucketsDaily ∧
    (Db.mk [] [] [] [] []
        [ResponseDoc.mk 0 0 0 []
          (some (SubmissionGrading.mk 3 3 0 100 []))]).surveyTextInsightsDaily =
      (Db.mk [] [] [] [] [] []).surveyTextInsightsDaily ∧
    (Db.mk [] [] [] [] []
        [ResponseDoc.mk 0 0 0 []
          (some (SubmissionGrading.mk 3 3 0 100 []))]).surveyVersions =
      (Db.mk [] [] [] [] [] []).surveyVersions ∧
    getSurveyScoringSummary 1
        (Db.mk [] [] [] [] []
          [ResponseDoc.mk 0 0 0 []
            (some (SubmissionGrading.mk 3 3 0 100 []))]) 0 0 0 ≠
      getSurveyScoringSummary 1 (Db.mk [] [] [] [] [] []) 0 0 0 := by
  refine ⟨rfl, rfl, rfl, rfl, rfl, ?_⟩
  have h1 : getSurveyScoringSummary 1
      (Db.mk [] [] [] [] []
        [ResponseDoc.mk 0 0 0 []
          (some (SubmissionGrading.mk 3 3 0 100 []))]) 0 0 0 =
      .ok (ScoringSummary.mk 0 0 3 0) := rfl
  have h2 : getSurveyScoringSummary 1 (Db.mk [] [] [] [] [] []) 0 0 0 =
      .ok (ScoringSummary.mk 0 0 0 0) := rfl
  rw [h1, h2]
  intro hcontra
  have h3 := Except.ok.inj hcontra
  have h4 : (3 : ℕ) = 0 := congrArg ScoringSummary.totalCorrect h3
  exact absurd h4 (by decide)

/-- C5 (amended): for two database states agreeing on the four rollup
tables and the survey version metadata, getSurveyFunnel,
getSurveyTrendSeries, getSurveyAnswerBreakdown, getSurveyFieldBreakdown,
getSurveyDropoffByStep and getSurveyCsvExport return identical results,
and so do the rollup-derived gradedResponses/avgScorePercent components
of getSurveyScoringSummary; its totalCorrect/totalIncorrect components,
however, are computed from raw surveyResponses rows (see the
counterexample). -/
theorem analytics_reads_determined_by_rollups
    (maxDays maxBuckets maxTopPhrases maxCsvRows : ℕ) (db1 db2 : Db)
    (surveyId : ℕ) (fromDate toDate : ℤ) (fieldId : String)
    (limitArg : Option ℕ) (report : CsvReport)
    (hA : db1.surveyAnalyticsDaily = db2.surveyAnalyticsDaily)
    (hF : db1.surveyFieldAnalyticsDaily = db2.surveyFieldAnalyticsDaily)
    (hB : db1.surveyAnswerBucketsDaily = db2.surveyAnswerBucketsDaily)
    (hT : db1.surveyTextInsightsDaily = db2.surveyTextInsightsDaily)
    (hV : db1.surveyVersions = db2.surveyVersions) :
    getSurveyFunnel maxDays db1 surveyId fromDate toDate =
        getSurveyFunnel maxDays db2 surveyId fromDate toDate ∧
      getSurveyTrendSeries maxDays db1 surveyId fromDate toDate =
        getSurveyTrendSeries maxDays db2 surveyId fromDate toDate ∧
      getSurveyAnswerBreakdown maxDays db1 surveyId fromDate toDate =
        getSurveyAnswerBreakdown maxDays db2 surveyId fromDate toDate ∧
      getSurveyFieldBreakdown maxDays maxBuckets maxTopPhrases db1 surveyId
          fromDate toDate fieldId limitArg =
        getSurveyFieldBreakdown maxDays maxBuckets maxTopPhrases db2 surveyId
          fromDate toDate fieldId limitArg ∧
      getSurveyDropoffByStep maxDays db1 surveyId fromDate toDate =
        getSurveyDropoffByStep maxDays db2 surveyId fromDate toDate ∧
      getSurveyCsvExport maxDays maxCsvRows db1 surveyId fromDate toDate report =
        getSurveyCsvExport maxDays maxCsvRows db2 surveyId fromDate toDate report ∧
      (getSurveyScoringSummary maxDays db1 surveyId fromDate toDate).map
          (fun s => (s.gradedResponses, s.avgScorePercent)) =
        (getSurveyScoringSummary maxDays db2 surveyId fromDate toDate).map
          (fun s => (s.gradedResponses, s.avgScorePercent)) := by
  refine ⟨?_, ?_, ?_, ?_, ?_, ?_, ?_⟩
  · simp only [getSurveyFunnel, hA]
  · simp only [getSurveyTrendSeries, hA]
  · simp only [getSurveyAnswerBreakdown, hF, hB, hV]
  · simp only [getSurveyFieldBreakdown, hF, hB, hT, hV]
  · simp only [getSurveyDropoffByStep, hF, hV]
  · simp only [getSurveyCsvExport, hA, hF, hB, hV]
  · cases hp : parseAnalyticsDateRange maxDays fromDate toDate with
    | error e => simp [getSurveyScoringSummary, hp]
    | ok range => simp [getSurveyScoringSummary, hp, hA, Except.map]

/-- Witness for the amended C5 theorem on two (equal) concrete states. -/
theorem analytics_reads_determined_by_rollups_witness :
    getSurveyFunnel 1 (Db.mk [] [] [] [] [] []) 0 0 0 =
      getSurveyFunnel 1 (Db.mk [] [] [] [] [] []) 0 0 0 :=
  (analytics_reads_determined_by_rollups 1 1 1 1 (Db.mk [] [] [] [] [] [])
    (Db.mk [] [] [] [] [] []) 0 0 0 "f" none .funnel rfl rfl rfl rfl rfl).1

/-! ## Row synchronisation produces exactly the fresh rows: claim C1 -/

theorem patchFirst_patched_perm [DecidableEq κ] (k : κ) (v : α)
    (slots : List (DocSlot α κ)) (h : hasUnpatched slots k = true) :
    ((patchFirst k v slots).filter (fun s => s.patched)).map (fun s => s.val)
      |>.Perm (v :: (slots.filter (fun s => s.patched)).map (fun s => s.val)) := by
  induction slots with
  | nil => simp [hasUnpatched] at h
  | cons s rest ih =>
      by_cases hc : s.key = k ∧ s.patched = false
      · simp only [patchFirst, hc, if_true]
        have hs : s.patched = false := hc.2
        simp [List.filter_cons, hs]
      · simp only [patchFirst, hc, if_false]
        have hrest : hasUnpatched rest k = true := by
          unfold hasUnpatched at h ⊢
          rcases List.any_eq_true.mp h with ⟨t, ht, hpt⟩
          rcases List.mem_cons.mp ht with rfl | ht2
          · exact absurd (of_decide_eq_true hpt) hc
          · exact List.any_eq_true.mpr ⟨t, ht2, hpt⟩
        cases hs : s.patched with
        | true =>
            simp only [List.filter_cons, hs, if_true, List.map_cons]
            calc s.val :: ((patchFirst k v rest).filter (fun s => s.patched)).map
                  (fun s => s.val)
                |>.Perm (s.val :: v ::
                  (rest.filter (fun s => s.patched)).map (fun s => s.val)) :=
                  List.Perm.cons _ (ih hrest)
              _ |>.Perm (v :: s.val ::
                  (rest.filter (fun s => s.patched)).map (fun s => s.val)) :=
                  List.Perm.swap _ _ _
        | false =>
            simpa [List.filter_cons, hs] using ih hrest

theorem syncGo_perm [DecidableEq κ] (key : α → κ) (ds : List α) :
    ∀ (slots : List (DocSlot α κ)) (inserted : List α),
      (((syncGo key slots inserted ds).1.filter (fun s => s.patched)).map
          (fun s => s.val) ++ (syncGo key slots inserted ds).2).Perm
        ((slots.filter (fun s => s.patched)).map (fun s => s.val) ++
          inserted ++ ds) := by
  induction ds with
  | nil =>
      intro slots inserted
      simp [syncGo]
  | cons d ds ih =>
      intro slots inserted
      by_cases hu : hasUnpatched slots (key d)
      · simp only [syncGo, hu, if_true]
        refine (ih _ _).trans ?_
        have hp := patchFirst_patched_perm (key d) d slots hu
        refine ((hp.append_right inserted).append_right ds).trans ?_
        calc ((d :: (slots.filter (fun s => s.patched)).map (fun s => s.val)) ++
              inserted ++ ds)
            = d :: ((slots.filter (fun s => s.patched)).map (fun s => s.val) ++
              inserted ++ ds) := by simp
          _ |>.Perm ((slots.filter (fun s => s.patched)).map (fun s => s.val) ++
              inserted ++ (d :: ds)) := by
                refine (List.perm_middle).symm.trans ?_
                simp [List.append_assoc]
      · simp only [syncGo, hu, if_false]
        refine (ih _ _).trans ?_
        simp [List.append_assoc]

theorem syncRows_perm [DecidableEq κ] (key : α → κ)
    (existing desired : List α) :
    (syncRows key existing desired).Perm desired := by
  unfold syncRows
  have hfilter : ((dedupeByKey key existing).map
      (fun a => { key := key a, val := a, patched := false : DocSlot α κ })).filter
        (fun s => s.patched) = [] := by
    apply List.filter_eq_nil.mpr
    intro s hs
    rcases List.mem_map.mp hs with ⟨a, _, rfl⟩
    simp
  have h := syncGo_perm key desired
    ((dedupeByKey key existing).map
      (fun a => { key := key a, val := a, patched := false : DocSlot α κ })) []
  rw [hfilter] at h
  simpa using h

theorem foldl_bumpBucket_nodup (entries : List (String × String)) :
    ∀ agg : FieldAggregate, (AList.keys agg.bucketMap).Nodup →
      (AList.keys (entries.foldl bumpBucket agg).bucketMap).Nodup := by
  induction entries with
  | nil => exact fun agg h => h
  | cons e es ih => exact fun agg h => ih _ (AList.keys_set_nodup _ _ _ h)

theorem processAgg2_inv (field : Field) (answers : AnswerMap) (m : ℕ)
    (agg0 : FieldAggregate) (h0f : agg0.fieldId = field.id)
    (h0b : (AList.keys agg0.bucketMap).Nodup) :
    (let agg1 := if field.order ≤ m then
        { agg0 with reachedCount := agg0.reachedCount + 1 } else agg0
     let answer := answers.get field.id
     let agg2 :=
       if isAnswerPresent answer then
         let a := answer.getD .null
         let withAnswered := { agg1 with answeredCount := agg1.answeredCount + 1 }
         let withBuckets := (bucketEntriesForAnswer field a).foldl bumpBucket withAnswered
         match a with
         | .str s =>
             if isTextKind field.kind ∧ 0 < (jsTrim s).length then
               { withBuckets with textAnswers := withBuckets.textAnswers ++ [s] }
             else withBuckets
         | _ => withBuckets
       else agg1
     agg2.fieldId = field.id ∧ (AList.keys agg2.bucketMap).Nodup) := by
  dsimp only
  repeat' split
  all_goals
    first
      | exact ⟨h0f, h0b⟩
      | (refine ⟨(foldl_bumpBucket_fieldId _ _).trans h0f,
          foldl_bumpBucket_nodup _ _ ?_⟩
         exact h0b)

theorem processField_inv (answers : AnswerMap) (m : ℕ) (field : Field)
    (aggs : AList String FieldAggregate)
    (hnd : (AList.keys aggs).Nodup)
    (hall : ∀ p ∈ aggs, p.2.fieldId = p.1 ∧ (AList.keys p.2.bucketMap).Nodup) :
    (AList.keys (processField answers m aggs field)).Nodup ∧
      ∀ p ∈ processField answers m aggs field,
        p.2.fieldId = p.1 ∧ (AList.keys p.2.bucketMap).Nodup := by
  unfold processField getOrCreateFieldAggregate
  cases hget : AList.get aggs field.id with
  | some existing =>
      have hex := hall _ (AList.get_mem hget)
      have hcore := processAgg2_inv field answers m existing hex.1 hex.2
      simp only at hcore ⊢
      exact ⟨AList.keys_set_nodup _ _ _ hnd,
        AList.forall_set _ _ _ hall ⟨hcore.1, hcore.2⟩⟩
  | none =>
      have hnb : (AList.keys ([] : AList String BucketCell)).Nodup := by
        simp [AList.keys]
      have hcore := processAgg2_inv field answers m
        ⟨field.id, field.label, field.kind, field.order, 0, 0, [], [],
          field.optionValues,
          (field.options.getD []).map (fun o => (o.value, o.label))⟩
        rfl hnb
      simp only at hcore ⊢
      exact ⟨AList.keys_set_nodup _ _ _ (AList.keys_set_nodup _ _ _ hnd),
        AList.forall_set _ _ _ (AList.forall_set _ _ _ hall ⟨rfl, hnb⟩)
          ⟨hcore.1, hcore.2⟩⟩

theorem foldl_processField_inv (answers : AnswerMap) (m : ℕ)
    (fields : List Field) :
    ∀ aggs : AList String FieldAggregate, (AList.keys aggs).Nodup →
      (∀ p ∈ aggs, p.2.fieldId = p.1 ∧ (AList.keys p.2.bucketMap).Nodup) →
      (AList.keys (fields.foldl (processField answers m) aggs)).Nodup ∧
        ∀ p ∈ fields.foldl (processField answers m) aggs,
          p.2.fieldId = p.1 ∧ (AList.keys p.2.bucketMap).Nodup := by
  induction fields with
  | nil => exact fun aggs h1 h2 => ⟨h1, h2⟩
  | cons f fs ih =>
      intro aggs h1 h2
      have h3 := processField_inv answers m f aggs h1 h2
      exact ih _ h3.1 h3.2

theorem processResponse_inv (versions : List VersionDoc)
    (acc : RebuildAccum) (response : ResponseDoc)
    (h1 : (AList.keys acc.aggs).Nodup)
    (h2 : ∀ p ∈ acc.aggs, p.2.fieldId = p.1 ∧ (AList.keys p.2.bucketMap).Nodup) :
    (AList.keys (processResponse versions acc response).aggs).Nodup ∧
      ∀ p ∈ (processResponse versions acc response).aggs,
        p.2.fieldId = p.1 ∧ (AList.keys p.2.bucketMap).Nodup := by
  unfold processResponse
  dsimp only
  have hmid : ∀ acc2 : RebuildAccum, acc2.aggs = acc.aggs →
      (AList.keys acc2.aggs).Nodup ∧
        ∀ p ∈ acc2.aggs, p.2.fieldId = p.1 ∧ (AList.keys p.2.bucketMap).Nodup :=
    fun acc2 he => ⟨he ▸ h1, he ▸ h2⟩
  repeat' split
  all_goals
    first
      | exact hmid _ rfl
      | exact foldl_processField_inv _ _ _ _ h1 h2

theorem rebuildAccum_inv (versions : List VersionDoc)
    (allResponses : List ResponseDoc) (surveyId : ℕ) (dateKey : ℤ) :
    (AList.keys (rebuildAccum versions allResponses surveyId dateKey).aggs).Nodup ∧
      ∀ p ∈ (rebuildAccum versions allResponses surveyId dateKey).aggs,
        p.2.fieldId = p.1 ∧ (AList.keys p.2.bucketMap).Nodup := by
  unfold rebuildAccum
  generalize getResponsesForSurveyDate allResponses surveyId dateKey = rs
  have hgen : ∀ (rs : List ResponseDoc) (acc : RebuildAccum),
      (AList.keys acc.aggs).Nodup →
      (∀ p ∈ acc.aggs, p.2.fieldId = p.1 ∧ (AList.keys p.2.bucketMap).Nodup) →
      (AList.keys (rs.foldl (processResponse versions) acc).aggs).Nodup ∧
        ∀ p ∈ (rs.foldl (processResponse versions) acc).aggs,
          p.2.fieldId = p.1 ∧ (AList.keys p.2.bucketMap).Nodup := by
    intro rs
    induction rs with
    | nil => exact fun acc ha hb => ⟨ha, hb⟩
    | cons r rs ih =>
        intro acc ha hb
        have h3 := processResponse_inv versions acc r ha hb
        exact ih _ h3.1 h3.2
  exact hgen rs _ (by simp [AList.keys]) (by simp)

theorem values_fieldId_eq_keys (aggs : AList String FieldAggregate)
    (hall : ∀ p ∈ aggs, p.2.fieldId = p.1) :
    (AList.values aggs).map (fun a => a.fieldId) = AList.keys aggs := by
  induction aggs with
  | nil => rfl
  | cons p rest ih =>
      simp only [AList.values, AList.keys, List.map_cons, List.map_map] at ih ⊢
      have h1 := hall p (List.mem_cons_self _ _)
      rw [h1]
      have h2 := ih (fun q hq => hall q (List.mem_cons_of_mem _ hq))
      simp only [Function.comp] at h2 ⊢
      rw [h2]

theorem computeFieldRows_keys_nodup (surveyId : ℕ) (dateKey : ℤ) (now : ℤ)
    (aggs : AList String FieldAggregate)
    (hnd : (AList.keys aggs).Nodup)
    (hall : ∀ p ∈ aggs, p.2.fieldId = p.1) :
    ((computeFieldRows surveyId dateKey now aggs).map
      (fun r => r.fieldId)).Nodup := by
  unfold computeFieldRows
  rw [List.map_map]
  have hperm : (((AList.values aggs).mergeSort
        (fun a b => decide (a.order ≤ b.order))).map
      (fun a => a.fieldId)).Perm ((AList.values aggs).map (fun a => a.fieldId)) :=
    (List.mergeSort_perm _ _).map _
  have hkeys : ((AList.values aggs).map (fun a => a.fieldId)).Nodup := by
    rw [values_fieldId_eq_keys aggs hall]; exact hnd
  exact hperm.nodup_iff.mpr hkeys

theorem pad_fold_inv (fid : String) (mkRow : String → BucketDailyRow)
    (hmk1 : ∀ v, (mkRow v).fieldId = fid) (hmk2 : ∀ v, (mkRow v).bucketKey = v)
    (vs : List String) :
    ∀ rows : List BucketDailyRow,
      (∀ r ∈ rows, r.fieldId = fid) →
      ((rows.map (fun r => r.bucketKey)).Nodup) →
      (∀ r ∈ vs.foldl
          (fun rows v =>
            if rows.any (fun row =>
                row.fieldId ++ "::" ++ row.bucketKey = fid ++ "::" ++ v) then rows
            else rows ++ [mkRow v]) rows, r.fieldId = fid) ∧
        ((vs.foldl
          (fun rows v =>
            if rows.any (fun row =>
                row.fieldId ++ "::" ++ row.bucketKey = fid ++ "::" ++ v) then rows
            else rows ++ [mkRow v]) rows).map (fun r => r.bucketKey)).Nodup := by
  induction vs with
  | nil => exact fun rows h1 h2 => ⟨h1, h2⟩
  | cons v vs ih =>
      intro rows h1 h2
      simp only [List.foldl_cons]
      by_cases hg : rows.any (fun row =>
          row.fieldId ++ "::" ++ row.bucketKey = fid ++ "::" ++ v) = true
      · simp only [hg, if_true]
        exact ih rows h1 h2
      · simp only [hg, if_false]
        have hnot : ∀ r ∈ rows, r.bucketKey ≠ v := by
          intro r hr hbk
          have : r.fieldId ++ "::" ++ r.bucketKey = fid ++ "::" ++ v := by
            rw [h1 r hr, hbk]
          exact hg (List.any_eq_true.mpr ⟨r, hr, decide_eq_true this⟩)
        refine ih (rows ++ [mkRow v]) ?_ ?_
        · intro r hr
          rcases List.mem_append.mp hr with h | h
          · exact h1 r h
          · rw [List.mem_singleton.mp h]; exact hmk1 v
        · rw [List.map_append]
          rw [List.nodup_append]
          refine ⟨h2, by simp, ?_⟩
          intro k hk hk2
          simp only [List.map_cons, List.map_nil, List.mem_singleton, hmk2] at hk2
          rcases List.mem_map.mp hk with ⟨r, hr, hrk⟩
          exact hnot r hr (hrk.trans hk2)

theorem bucketRowsForAggregate_inv (surveyId : ℕ) (dateKey : ℤ) (now : ℤ)
    (agg : FieldAggregate) (hb : (AList.keys agg.bucketMap).Nodup) :
    (∀ r ∈ bucketRowsForAggregate surveyId dateKey now agg,
        r.fieldId = agg.fieldId) ∧
      ((bucketRowsForAggregate surveyId dateKey now agg).map
        (fun r => r.bucketKey)).Nodup := by
  unfold bucketRowsForAggregate
  dsimp only
  have hbase1 : ∀ r ∈ (agg.bucketMap.map
      (fun p => BucketDailyRow.mk surveyId agg.fieldId dateKey p.1
        p.2.label p.2.count now)),
      r.fieldId = agg.fieldId := by
    intro r hr
    rcases List.mem_map.mp hr with ⟨p, _, rfl⟩
    rfl
  have hbase2 : ((agg.bucketMap.map
      (fun p => BucketDailyRow.mk surveyId agg.fieldId dateKey p.1
        p.2.label p.2.count now)).map
        (fun r => r.bucketKey)).Nodup := by
    rw [List.map_map]
    exact hb
  split
  · split
    · have hmid := pad_fold_inv agg.fieldId
        (optionPadRow surveyId dateKey now agg) (fun v => rfl) (fun v => rfl)
        agg.optionOrder _ hbase1 hbase2
      exact pad_fold_inv agg.fieldId
        (ratingPadRow surveyId dateKey now agg) (fun v => rfl) (fun v => rfl)
        ["1", "2", "3", "4", "5"] _ hmid.1 hmid.2
    · exact pad_fold_inv agg.fieldId
        (ratingPadRow surveyId dateKey now agg) (fun v => rfl) (fun v => rfl)
        ["1", "2", "3", "4", "5"] _ hbase1 hbase2
  · split
    · exact pad_fold_inv agg.fieldId
        (optionPadRow surveyId dateKey now agg) (fun v => rfl) (fun v => rfl)
        agg.optionOrder _ hbase1 hbase2
    · exact ⟨hbase1, hbase2⟩

theorem chunk_pair_nodup (fid : String) (rows : List BucketDailyRow)
    (h1 : ∀ r ∈ rows, r.fieldId = fid)
    (h2 : (rows.map (fun r => r.bucketKey)).Nodup) :
    (rows.map (fun r => (r.fieldId, r.bucketKey))).Nodup := by
  have he : rows.map (fun r => (r.fieldId, r.bucketKey)) =
      (rows.map (fun r => r.bucketKey)).map (fun k => (fid, k)) := by
    rw [List.map_map]
    exact List.map_congr_left (fun r hr => by rw [Function.comp, h1 r hr])
  rw [he]
  exact h2.map (fun a b hab => (Prod.mk.injEq _ _ _ _ ▸ hab).2)

theorem flatMap_bucketRows_pair_nodup (surveyId : ℕ) (dateKey : ℤ) (now : ℤ)
    (as : List FieldAggregate)
    (hnd : (as.map (fun a => a.fieldId)).Nodup)
    (hb : ∀ a ∈ as, (AList.keys a.bucketMap).Nodup) :
    ((as.flatMap (bucketRowsForAggregate surveyId dateKey now)).map
      (fun r => (r.fieldId, r.bucketKey))).Nodup := by
  induction as with
  | nil => simp
  | cons a as ih =>
      simp only [List.flatMap_cons, List.map_append]
      have hinv := bucketRowsForAggregate_inv surveyId dateKey now a
        (hb a (List.mem_cons_self _ _))
      rw [List.nodup_append]
      refine ⟨chunk_pair_nodup a.fieldId _ hinv.1 hinv.2,
        ih (List.Nodup.of_cons hnd) (fun x hx => hb x (List.mem_cons_of_mem _ hx)),
        ?_⟩
      intro p hp hp2
      rcases List.mem_map.mp hp with ⟨r, hr, rfl⟩
      rcases List.mem_map.mp hp2 with ⟨r2, hr2, hpr⟩
      rcases List.mem_flatMap.mp hr2 with ⟨a2, ha2, hr2m⟩
      have hf1 : r.fieldId = a.fieldId := hinv.1 r hr
      have hf2 : r2.fieldId = a2.fieldId :=
        (bucketRowsForAggregate_inv surveyId dateKey now a2
          (hb a2 (List.mem_cons_of_mem _ ha2))).1 r2 hr2m
      have hfe : a.fieldId = a2.fieldId := by
        have := congrArg Prod.fst hpr
        simp only at this
        rw [← hf1, ← hf2, this]
      have hmem : a.fieldId ∈ as.map (fun a => a.fieldId) :=
        List.mem_map.mpr ⟨a2, ha2, hfe.symm⟩
      exact (List.nodup_cons.mp hnd).1 hmem

theorem computeBucketRows_pair_nodup (surveyId : ℕ) (dateKey : ℤ) (now : ℤ)
    (aggs : AList String FieldAggregate)
    (hnd : (AList.keys aggs).Nodup)
    (hall : ∀ p ∈ aggs, p.2.fieldId = p.1 ∧ (AList.keys p.2.bucketMap).Nodup) :
    ((computeBucketRows surveyId dateKey now aggs).map
      (fun r => (r.fieldId, r.bucketKey))).Nodup := by
  unfold computeBucketRows
  refine flatMap_bucketRows_pair_nodup surveyId dateKey now _ ?_ ?_
  · rw [values_fieldId_eq_keys aggs (fun p hp => (hall p hp).1)]
    exact hnd
  · intro a ha
    rcases List.mem_map.mp ha with ⟨p, hp, rfl⟩
    exact (hall p hp).2

/-- C1: for every survey id, UTC date key and fixed now, a second run of
rebuildDailyMaterializedAnalytics over the same stored responses leaves the
surveyAnalyticsDaily slice unchanged and reproduces the
surveyFieldAnalyticsDaily and surveyAnswerBucketsDaily slices up to order
(the same row multiset); the produced slices carry no duplicate key (a
single analytics row, field ids without repetition, (fieldId, bucketKey)
pairs without repetition); and every surviving row comes from the fresh
computation, so a pre-existing row whose key is absent from the fresh
computation is deleted. -/
theorem rebuild_idempotent (maxPhrases maxSnippets : ℕ)
    (sanitize : String → String) (versions : List VersionDoc)
    (allResponses : List ResponseDoc) (metrics : Option MetricsDailyRow)
    (surveyId : ℕ) (dateKey : ℤ) (now : ℤ) (includeTextInsights : Bool)
    (st : RollupState) :
    let st1 := rebuildDailyMaterializedAnalytics maxPhrases maxSnippets sanitize
      versions allResponses metrics surveyId dateKey now includeTextInsights st
    let st2 := rebuildDailyMaterializedAnalytics maxPhrases maxSnippets sanitize
      versions allResponses metrics surveyId dateKey now includeTextInsights st1
    let aggs := (rebuildAccum versions allResponses surveyId dateKey).aggs
    st2.analyticsRows = st1.analyticsRows ∧
      st2.fieldRows.Perm st1.fieldRows ∧
      st2.bucketRows.Perm st1.bucketRows ∧
      (∃ row, st1.analyticsRows = [row]) ∧
      (st1.fieldRows.map (fun r => r.fieldId)).Nodup ∧
      (st1.bucketRows.map (fun r => (r.fieldId, r.bucketKey))).Nodup ∧
      (∀ r ∈ st1.fieldRows, r ∈ computeFieldRows surveyId dateKey now aggs) ∧
      (∀ r ∈ st1.bucketRows, r ∈ computeBucketRows surveyId dateKey now aggs) := by
  intro st1 st2 aggs
  have hinv := rebuildAccum_inv versions allResponses surveyId dateKey
  have hf1 : st1.fieldRows.Perm (computeFieldRows surveyId dateKey now aggs) :=
    syncRows_perm _ _ _
  have hf2 : st2.fieldRows.Perm (computeFieldRows surveyId dateKey now aggs) :=
    syncRows_perm _ _ _
  have hk1 : st1.bucketRows.Perm (computeBucketRows surveyId dateKey now aggs) :=
    syncRows_perm _ _ _
  have hk2 : st2.bucketRows.Perm (computeBucketRows surveyId dateKey now aggs) :=
    syncRows_perm _ _ _
  have ha1 := upsertRow_eq st.analyticsRows
    (computeAnalyticsRow surveyId dateKey now metrics
      (getResponsesForSurveyDate allResponses surveyId dateKey).length
      (rebuildAccum versions allResponses surveyId dateKey).totalGraded
      (rebuildAccum versions allResponses surveyId dateKey).sumScorePercent)
  have ha2 := upsertRow_eq st1.analyticsRows
    (computeAnalyticsRow surveyId dateKey now metrics
      (getResponsesForSurveyDate allResponses surveyId dateKey).length
      (rebuildAccum versions allResponses surveyId dateKey).totalGraded
      (rebuildAccum versions allResponses surveyId dateKey).sumScorePercent)
  refine ⟨ha2.trans ha1.symm, hf2.trans hf1.symm, hk2.trans hk1.symm,
    ⟨_, ha1⟩, ?_, ?_, ?_, ?_⟩
  · exact (hf1.map (fun r => r.fieldId)).nodup_iff.mpr
      (computeFieldRows_keys_nodup surveyId dateKey now aggs hinv.1
        (fun p hp => (hinv.2 p hp).1))
  · exact (hk1.map (fun r => (r.fieldId, r.bucketKey))).nodup_iff.mpr
      (computeBucketRows_pair_nodup surveyId dateKey now aggs hinv.1 hinv.2)
  · exact fun r hr => hf1.mem_iff.mp hr
  · exact fun r hr => hk1.mem_iff.mp hr

theorem rebuild_idempotent_witness :
    (let st1 := rebuildDailyMaterializedAnalytics 0 0 (fun s => s) [] [] none
        0 0 0 false (RollupState.mk [] [FieldDailyRow.mk 0 "stale" 0 1 1 0 0] [] [])
     let st2 := rebuildDailyMaterializedAnalytics 0 0 (fun s => s) [] [] none
        0 0 0 false st1
     let aggs := (rebuildAccum [] [] 0 0).aggs
     st2.analyticsRows = st1.analyticsRows ∧
      st2.fieldRows.Perm st1.fieldRows ∧
      st2.bucketRows.Perm st1.bucketRows ∧
      (∃ row, st1.analyticsRows = [row]) ∧
      (st1.fieldRows.map (fun r => r.fieldId)).Nodup ∧
      (st1.bucketRows.map (fun r => (r.fieldId, r.bucketKey))).Nodup ∧
      (∀ r ∈ st1.fieldRows, r ∈ computeFieldRows 0 0 0 aggs) ∧
      (∀ r ∈ st1.bucketRows, r ∈ computeBucketRows 0 0 0 aggs)) :=
  rebuild_idempotent 0 0 (fun s => s) [] [] none 0 0 0 false
    (RollupState.mk [] [FieldDailyRow.mk 0 "stale" 0 1 1 0 0] [] [])

end Surveys
